import Mathlib

/-!
Shallow embedding of `internal/api/policy.go` (MinIO KES policy API layer).

Each Go handler is embedded as a Lean function over explicit oracle
parameters that stand for the outcomes of its external collaborator calls
(name/pattern extraction, enclave resolution, request verification, JSON
body decoding, the vault admin accessor, the backing policy store, and the
response encoder).  A handler produces
  * a `result` (`none` = the Go handler returned `nil`, `some e` = it
    returned the error `e`, which the surrounding router turns into an
    error status plus body),
  * a `wire` trace of response-writer events (content-type header, status
    header, encoded JSON records), and
  * an `ops` trace of lock / verification / state-access events mirroring
    the `Sync` / `VSync` lock helpers and the calls made under them.
-/

namespace KES

/-- An error as produced by `kes.NewError` / collaborator calls: an HTTP
status code plus a message. -/
structure Err where
  status : Nat
  message : String
deriving DecidableEq, Repr

/-- Modelled from the spec: `kes.Identity` (package `kes-go`, not under
`src/`) is an opaque, byte-comparable token with a distinguished
"unknown identity" sentinel (the empty value). -/
structure Identity where
  value : String
deriving DecidableEq, Repr

/-- Modelled from the spec: `Identity.IsUnknown` holds exactly of the
unknown-identity sentinel. -/
def Identity.IsUnknown (i : Identity) : Bool :=
  i.value = ""

/-- `auth.Policy`: allow patterns, deny patterns, creation metadata.
Timestamps are modelled as naturals. -/
structure Policy where
  allow : List String
  deny : List String
  createdAt : Nat
  createdBy : Identity
deriving DecidableEq, Repr

/-- A JSON record encoded onto the response stream. -/
inductive Rec where
  /-- `{created_at, created_by}` (describe response body). -/
  | meta (createdAt : Nat) (createdBy : Identity)
  /-- `{allow, deny, created_at, created_by}` (read response body). -/
  | full (allow deny : List String) (createdAt : Nat) (createdBy : Identity)
  /-- `{name, created_at, created_by}` (one line of a list stream). -/
  | item (name : String) (createdAt : Nat) (createdBy : Identity)
  /-- `{error: <message>}` (terminal partial-failure line of a list stream). -/
  | errRec (message : String)
deriving DecidableEq, Repr

/-- Response-writer events, in the order the handler performs them. -/
inductive WireEvent where
  | setContentType (ct : String)
  | writeHeader (status : Nat)
  | record (r : Rec)
deriving DecidableEq, Repr

/-- Lock, verification and state-access events, mirroring the code's
`Sync(config.Vault.RLocker(), ...)` / `Sync(enclave.Locker(), ...)` /
`VSync(enclave.RLocker(), ...)` nesting and the collaborator calls made
while the locks are held. -/
inductive OpEvent where
  | lockVaultR
  | unlockVaultR
  | lockEnclaveR
  | unlockEnclaveR
  | lockEnclaveW
  | unlockEnclaveW
  | verifyRequest
  | stateOp (op : String)
deriving DecidableEq, Repr

/-- What a handler run produced: the returned error (if any), the wire
trace and the op trace. -/
structure HOut where
  result : Option Err
  wire : List WireEvent
  ops : List OpEvent
deriving DecidableEq, Repr

def StatusOK : Nat := 200
def StatusBadRequest : Nat := 400
def StatusForbidden : Nat := 403
def StatusNotFound : Nat := 404

/-- Modelled from the spec: the enclave's policy store and
identity-assignment store (`Enclave` methods live outside `src/`).
Association lists keyed by policy name / identity. -/
structure EnclaveSt where
  policies : List (String × Policy)
  assignments : List (Identity × String)
deriving DecidableEq, Repr

/-- Modelled from the spec: `Enclave.GetPolicy` — lookup by name,
`not found` failure when absent. -/
def EnclaveSt.getPolicy (st : EnclaveSt) (name : String) : Except Err Policy :=
  match st.policies.lookup name with
  | some p => .ok p
  | none => .error ⟨StatusNotFound, "policy does not exist"⟩

/-- Modelled from the spec: `Enclave.SetPolicy` — a policy is wholly
replaced on write (no partial/merge update). -/
def EnclaveSt.setPolicy (st : EnclaveSt) (name : String) (p : Policy) : EnclaveSt :=
  { st with policies := (name, p) :: st.policies.filter (fun q => q.1 ≠ name) }

/-- Modelled from the spec: `Enclave.DeletePolicy` — removes the named
policy, failing with `not found` if absent (no silent no-op). -/
def EnclaveSt.deletePolicy (st : EnclaveSt) (name : String) : Except Err EnclaveSt :=
  match st.policies.lookup name with
  | some _ => .ok { st with policies := st.policies.filter (fun q => q.1 ≠ name) }
  | none => .error ⟨StatusNotFound, "policy does not exist"⟩

/-- Modelled from the spec: `Enclave.AssignPolicy` — records that the
target identity is assigned the named policy; the name must already exist
as a policy in the enclave, or the call fails. -/
def EnclaveSt.assignPolicy (st : EnclaveSt) (name : String) (i : Identity) :
    Except Err EnclaveSt :=
  match st.policies.lookup name with
  | some _ =>
      .ok { st with
            assignments := (i, name) :: st.assignments.filter (fun q => q.1 ≠ i) }
  | none => .error ⟨StatusNotFound, "policy does not exist"⟩

/-! ### `assignPolicy` (POST /v1/policy/assign/) -/

/-- Oracle inputs of one `assignPolicy` handler run.  Each `Except` field
is the outcome of the corresponding external call in the order the Go
code makes them. -/
structure AssignArgs where
  /-- `nameFromRequest(r, APIPath)`. -/
  nameRes : Except Err String
  /-- `enclaveFromRequest(config.Vault, r)` (resolution under the vault
  read lock). -/
  resolveRes : Except Err Unit
  /-- `enclave.VerifyRequest(r)`. -/
  verifyRes : Except Err Unit
  /-- `json.NewDecoder(r.Body).Decode(&req)`: the decoded target identity. -/
  decodeRes : Except Err Identity
  /-- `verifyName(req.Identity.String())` (helper outside `src/`,
  parameterised). -/
  nameCheck : String → Option Err
  /-- `auth.Identify(r)`: the requester's verified identity. -/
  self : Identity
  /-- `config.Vault.Admin(r.Context())`. -/
  adminRes : Except Err Identity
  /-- The enclave state the handler runs against. -/
  st : EnclaveSt

/-- The `assignPolicy` handler of `internal/api/policy.go`: checks, in
order, name extraction, enclave resolution, request verification, body
decoding, target-name syntax, the unknown-identity sentinel, target =
requester (self-assignment), target = vault admin, and finally performs
the assignment.  Returns the handler outcome and the (possibly updated)
enclave state. -/
def assignPolicy (a : AssignArgs) : HOut × EnclaveSt :=
  match a.nameRes with
  | .error e => (⟨some e, [], []⟩, a.st)
  | .ok name =>
    match a.resolveRes with
    | .error e => (⟨some e, [], [.lockVaultR, .unlockVaultR]⟩, a.st)
    | .ok _ =>
      let pre : List OpEvent := [.lockVaultR, .lockEnclaveW, .verifyRequest]
      let post : List OpEvent := [.unlockEnclaveW, .unlockVaultR]
      match a.verifyRes with
      | .error e => (⟨some e, [], pre ++ post⟩, a.st)
      | .ok _ =>
        match a.decodeRes with
        | .error e => (⟨some e, [], pre ++ post⟩, a.st)
        | .ok target =>
          match a.nameCheck target.value with
          | some e => (⟨some e, [], pre ++ post⟩, a.st)
          | none =>
            if target.IsUnknown then
              (⟨some ⟨StatusBadRequest, "identity is unknown"⟩, [], pre ++ post⟩, a.st)
            else if a.self = target then
              (⟨some ⟨StatusForbidden, "identity cannot assign policy to itself"⟩,
                [], pre ++ post⟩, a.st)
            else
              match a.adminRes with
              | .error e => (⟨some e, [], pre ++ [.stateOp "Admin"] ++ post⟩, a.st)
              | .ok admin =>
                if admin = target then
                  (⟨some ⟨StatusBadRequest, "cannot assign policy to system admin"⟩,
                    [], pre ++ [.stateOp "Admin"] ++ post⟩, a.st)
                else
                  match a.st.assignPolicy name target with
                  | .error e =>
                      (⟨some e, [],
                        pre ++ [.stateOp "Admin", .stateOp "AssignPolicy"] ++ post⟩,
                       a.st)
                  | .ok st2 =>
                      (⟨none, [.writeHeader StatusOK],
                        pre ++ [.stateOp "Admin", .stateOp "AssignPolicy"] ++ post⟩,
                       st2)

/-! ### `describePolicy` / `readPolicy` (GET /v1/policy/describe/, /v1/policy/read/) -/

/-- Oracle inputs shared by the two enclave read-only single-policy
handlers. -/
structure GetArgs where
  nameRes : Except Err String
  resolveRes : Except Err Unit
  verifyRes : Except Err Unit
  st : EnclaveSt
  /-- Outcome of `json.NewEncoder(w).Encode(...)`; the Go code discards
  this value. -/
  encodeRes : Option Err

/-- The `describePolicy` handler: lock, resolve, verify, `GetPolicy`,
then write content type, status 200, and the `{created_at, created_by}`
record; the encoder's error is discarded. -/
def describePolicy (a : GetArgs) : HOut :=
  match a.nameRes with
  | .error e => ⟨some e, [], []⟩
  | .ok name =>
    match a.resolveRes with
    | .error e => ⟨some e, [], [.lockVaultR, .unlockVaultR]⟩
    | .ok _ =>
      let pre : List OpEvent := [.lockVaultR, .lockEnclaveR, .verifyRequest]
      let post : List OpEvent := [.unlockEnclaveR, .unlockVaultR]
      match a.verifyRes with
      | .error e => ⟨some e, [], pre ++ post⟩
      | .ok _ =>
        match a.st.getPolicy name with
        | .error e => ⟨some e, [], pre ++ [.stateOp "GetPolicy"] ++ post⟩
        | .ok p =>
            ⟨none,
             [.setContentType "application/json", .writeHeader StatusOK,
              .record (.meta p.createdAt p.createdBy)],
             pre ++ [.stateOp "GetPolicy"] ++ post⟩

/-- The `readPolicy` handler: identical control flow to `describePolicy`
but the record additionally carries the allow/deny rule sets. -/
def readPolicy (a : GetArgs) : HOut :=
  match a.nameRes with
  | .error e => ⟨some e, [], []⟩
  | .ok name =>
    match a.resolveRes with
    | .error e => ⟨some e, [], [.lockVaultR, .unlockVaultR]⟩
    | .ok _ =>
      let pre : List OpEvent := [.lockVaultR, .lockEnclaveR, .verifyRequest]
      let post : List OpEvent := [.unlockEnclaveR, .unlockVaultR]
      match a.verifyRes with
      | .error e => ⟨some e, [], pre ++ post⟩
      | .ok _ =>
        match a.st.getPolicy name with
        | .error e => ⟨some e, [], pre ++ [.stateOp "GetPolicy"] ++ post⟩
        | .ok p =>
            ⟨none,
             [.setContentType "application/json", .writeHeader StatusOK,
              .record (.full p.allow p.deny p.createdAt p.createdBy)],
             pre ++ [.stateOp "GetPolicy"] ++ post⟩

/-- Oracle inputs of the edge (no-enclave) describe/read handlers:
`auth.VerifyRequest(r, config.Policies, config.Identities)` followed by
`config.Policies.Get`. -/
structure EdgeGetArgs where
  nameRes : Except Err String
  verifyRes : Except Err Unit
  st : EnclaveSt
  encodeRes : Option Err

/-- The `edgeDescribePolicy` handler body: no vault/enclave locks; verify
then `Policies.Get`, then content type, 200, record; encoder error
discarded. -/
def edgeDescribePolicy (a : EdgeGetArgs) : HOut :=
  match a.nameRes with
  | .error e => ⟨some e, [], []⟩
  | .ok name =>
    match a.verifyRes with
    | .error e => ⟨some e, [], [.verifyRequest]⟩
    | .ok _ =>
      match a.st.getPolicy name with
      | .error e => ⟨some e, [], [.verifyRequest, .stateOp "Get"]⟩
      | .ok p =>
          ⟨none,
           [.setContentType "application/json", .writeHeader StatusOK,
            .record (.meta p.createdAt p.createdBy)],
           [.verifyRequest, .stateOp "Get"]⟩

/-- The `edgeReadPolicy` handler body: like `edgeDescribePolicy` with the
full record. -/
def edgeReadPolicy (a : EdgeGetArgs) : HOut :=
  match a.nameRes with
  | .error e => ⟨some e, [], []⟩
  | .ok name =>
    match a.verifyRes with
    | .error e => ⟨some e, [], [.verifyRequest]⟩
    | .ok _ =>
      match a.st.getPolicy name with
      | .error e => ⟨some e, [], [.verifyRequest, .stateOp "Get"]⟩
      | .ok p =>
          ⟨none,
           [.setContentType "application/json", .writeHeader StatusOK,
            .record (.full p.allow p.deny p.createdAt p.createdBy)],
           [.verifyRequest, .stateOp "Get"]⟩

/-! ### `writePolicy` (POST /v1/policy/write/) -/

/-- Oracle inputs of one `writePolicy` handler run. -/
structure WriteArgs where
  nameRes : Except Err String
  resolveRes : Except Err Unit
  verifyRes : Except Err Unit
  /-- Decoded `{allow, deny}` body. -/
  decodeRes : Except Err (List String × List String)
  /-- `time.Now().UTC()` at the moment of the write. -/
  now : Nat
  /-- `auth.Identify(r)`: the requester's verified identity. -/
  self : Identity
  /-- Outcome of the backing store's set operation (`none` = success). -/
  setRes : Option Err
  st : EnclaveSt

/-- The `writePolicy` handler: lock, resolve, verify, decode, then
`enclave.SetPolicy` with allow/deny from the body, `createdAt` =
`time.Now().UTC()` and `createdBy` = the verified requester identity. -/
def writePolicy (a : WriteArgs) : HOut × EnclaveSt :=
  match a.nameRes with
  | .error e => (⟨some e, [], []⟩, a.st)
  | .ok name =>
    match a.resolveRes with
    | .error e => (⟨some e, [], [.lockVaultR, .unlockVaultR]⟩, a.st)
    | .ok _ =>
      let pre : List OpEvent := [.lockVaultR, .lockEnclaveW, .verifyRequest]
      let post : List OpEvent := [.unlockEnclaveW, .unlockVaultR]
      match a.verifyRes with
      | .error e => (⟨some e, [], pre ++ post⟩, a.st)
      | .ok _ =>
        match a.decodeRes with
        | .error e => (⟨some e, [], pre ++ post⟩, a.st)
        | .ok body =>
          match a.setRes with
          | some e => (⟨some e, [], pre ++ [.stateOp "SetPolicy"] ++ post⟩, a.st)
          | none =>
              (⟨none, [.writeHeader StatusOK],
                pre ++ [.stateOp "SetPolicy"] ++ post⟩,
               a.st.setPolicy name ⟨body.1, body.2, a.now, a.self⟩)

/-! ### `deletePolicy` (DELETE /v1/policy/delete/) -/

/-- Oracle inputs of one `deletePolicy` handler run. -/
structure DeleteArgs where
  nameRes : Except Err String
  resolveRes : Except Err Unit
  verifyRes : Except Err Unit
  st : EnclaveSt

/-- The `deletePolicy` handler: lock, resolve, verify, then
`enclave.DeletePolicy`. -/
def deletePolicy (a : DeleteArgs) : HOut × EnclaveSt :=
  match a.nameRes with
  | .error e => (⟨some e, [], []⟩, a.st)
  | .ok name =>
    match a.resolveRes with
    | .error e => (⟨some e, [], [.lockVaultR, .unlockVaultR]⟩, a.st)
    | .ok _ =>
      let pre : List OpEvent := [.lockVaultR, .lockEnclaveW, .verifyRequest]
      let post : List OpEvent := [.unlockEnclaveW, .unlockVaultR]
      match a.verifyRes with
      | .error e => (⟨some e, [], pre ++ post⟩, a.st)
      | .ok _ =>
        match a.st.deletePolicy name with
        | .error e => (⟨some e, [], pre ++ [.stateOp "DeletePolicy"] ++ post⟩, a.st)
        | .ok st2 =>
            (⟨none, [.writeHeader StatusOK],
              pre ++ [.stateOp "DeletePolicy"] ++ post⟩, st2)

/-! ### `listPolicy` (GET /v1/policy/list/) -/

def NDJSON : String := "application/x-ndjson"

/-- Oracle inputs of one `listPolicy` handler run. -/
structure ListArgs where
  /-- `patternFromRequest(r, APIPath)`. -/
  patternRes : Except Err String
  resolveRes : Except Err Unit
  verifyRes : Except Err Unit
  /-- `enclave.ListPolicies(r.Context())`: the names the iterator yields,
  in order. -/
  listRes : Except Err (List String)
  /-- `path.Match(pattern, name)` (Go standard library, external): the
  `(matched, err)` pair, modelled as `(matched, errored)`.  Go returns
  `matched = false` whenever it returns a non-nil error. -/
  pmatch : String → String → Bool × Bool
  /-- `enclave.GetPolicy` during iteration. -/
  getP : String → Except Err Policy
  /-- `encoder.Encode` on a record (`none` = success). -/
  enc : Rec → Option Err
  /-- `iterator.Close()` at the end of the loop (`none` = success). -/
  closeRes : Option Err

/-- The `for iterator.Next()` loop of `listPolicy`: skip non-matching
names (the match error is discarded — only the boolean is consulted); on
the first match set the content type and write the 200 header; fetch the
policy and encode one `{name, created_at, created_by}` line; stop at the
first fetch or encode error.  Returns `(hasWritten, wire, ops, err)`. -/
def listLoop (pmatch : String → String → Bool × Bool) (pattern : String)
    (getP : String → Except Err Policy) (enc : Rec → Option Err) :
    List String → Bool → Bool × List WireEvent × List OpEvent × Option Err
  | [], hw => (hw, [], [], none)
  | n :: rest, hw =>
    if (pmatch pattern n).1 = false then
      listLoop pmatch pattern getP enc rest hw
    else
      let hdr : List WireEvent :=
        if hw then [] else [.setContentType NDJSON, .writeHeader StatusOK]
      match getP n with
      | .error e => (true, hdr, [.stateOp "GetPolicy"], some e)
      | .ok p =>
        let rcd : Rec := .item n p.createdAt p.createdBy
        match enc rcd with
        | some e => (true, hdr ++ [.record rcd], [.stateOp "GetPolicy"], some e)
        | none =>
          let out := listLoop pmatch pattern getP enc rest true
          (out.1, hdr ++ [.record rcd] ++ out.2.1,
           .stateOp "GetPolicy" :: out.2.2.1, out.2.2.2)

/-- The `listPolicy` handler: under the vault read lock and enclave read
lock, verify, open the iterator, run the loop, and close the iterator.
If the loop or the close failed after something was written, one final
`{error}` record is emitted and the handler returns success; if nothing
was written the error is returned as-is; if nothing matched and nothing
failed, a bare 200 header is written. -/
def listPolicy (a : ListArgs) : HOut :=
  match a.patternRes with
  | .error e => ⟨some e, [], []⟩
  | .ok pattern =>
    match a.resolveRes with
    | .error e => ⟨some e, [], [.lockVaultR, .unlockVaultR]⟩
    | .ok _ =>
      match a.verifyRes with
      | .error e =>
          ⟨some e, [],
           [.lockVaultR, .lockEnclaveR, .verifyRequest, .unlockEnclaveR, .unlockVaultR]⟩
      | .ok _ =>
        match a.listRes with
        | .error e =>
            ⟨some e, [],
             [.lockVaultR, .lockEnclaveR, .verifyRequest, .stateOp "ListPolicies",
              .unlockEnclaveR, .unlockVaultR]⟩
        | .ok names =>
          let out := listLoop a.pmatch pattern a.getP a.enc names false
          let hw := out.1
          let w := out.2.1
          let ops : List OpEvent :=
            [.lockVaultR, .lockEnclaveR, .verifyRequest, .stateOp "ListPolicies"]
              ++ out.2.2.1 ++ [.unlockEnclaveR, .unlockVaultR]
          match out.2.2.2 with
          | some e =>
              if hw then ⟨none, w ++ [.record (.errRec e.message)], ops⟩
              else ⟨some e, w, ops⟩
          | none =>
            match a.closeRes with
            | some e =>
                if hw then ⟨none, w ++ [.record (.errRec e.message)], ops⟩
                else ⟨some e, w, ops⟩
            | none =>
                if hw then ⟨none, w, ops⟩
                else ⟨none, w ++ [.writeHeader StatusOK], ops⟩

/-! ### `edgeListPolicy` (GET /v1/policy/list/, edge server) -/

/-- Oracle inputs of one `edgeListPolicy` handler run. -/
structure EdgeListArgs where
  patternRes : Except Err String
  verifyRes : Except Err Unit
  listRes : Except Err (List String)
  pmatch : String → String → Bool × Bool
  getP : String → Except Err Policy
  enc : Rec → Option Err
  closeRes : Option Err

/-- The `for iterator.Next()` loop of `edgeListPolicy`: skip non-matching
names (match error discarded); on the first match set the content type
again; on a fetch error encode an `{error}` record and return success
immediately; on an encode error return success immediately.  Returns
`(hasWritten, wire, ops, earlyReturn)`. -/
def edgeListLoop (pmatch : String → String → Bool × Bool) (pattern : String)
    (getP : String → Except Err Policy) (enc : Rec → Option Err) :
    List String → Bool → Bool × List WireEvent × List OpEvent × Bool
  | [], hw => (hw, [], [], false)
  | n :: rest, hw =>
    if (pmatch pattern n).1 = false then
      edgeListLoop pmatch pattern getP enc rest hw
    else
      let hdr : List WireEvent := if hw then [] else [.setContentType NDJSON]
      match getP n with
      | .error e =>
          (true, hdr ++ [.record (.errRec e.message)], [.stateOp "Get"], true)
      | .ok p =>
        let rcd : Rec := .item n p.createdAt p.createdBy
        match enc rcd with
        | some _ => (true, hdr ++ [.record rcd], [.stateOp "Get"], true)
        | none =>
          let out := edgeListLoop pmatch pattern getP enc rest true
          (out.1, hdr ++ [.record rcd] ++ out.2.1,
           .stateOp "Get" :: out.2.2.1, out.2.2.2)

/-- The `edgeListPolicy` handler: verify, open the iterator, set the
content type once before the loop, run the loop; a loop-internal failure
already returned success from inside the loop.  On a close error the
"already written" branch emits an `{error}` record; otherwise, if nothing
was written, the content type is set again and a bare 200 written. -/
def edgeListPolicy (a : EdgeListArgs) : HOut :=
  match a.patternRes with
  | .error e => ⟨some e, [], []⟩
  | .ok pattern =>
    match a.verifyRes with
    | .error e => ⟨some e, [], [.verifyRequest]⟩
    | .ok _ =>
      match a.listRes with
      | .error e => ⟨some e, [], [.verifyRequest, .stateOp "List"]⟩
      | .ok names =>
        let out := edgeListLoop a.pmatch pattern a.getP a.enc names false
        let hw := out.1
        let w := WireEvent.setContentType NDJSON :: out.2.1
        let ops : List OpEvent :=
          [.verifyRequest, .stateOp "List"] ++ out.2.2.1
        if out.2.2.2 then ⟨none, w, ops⟩
        else
          match a.closeRes with
          | some e =>
              if hw then ⟨none, w ++ [.record (.errRec e.message)], ops⟩
              else ⟨some e, w, ops⟩
          | none =>
              if hw then ⟨none, w, ops⟩
              else ⟨none, w ++ [.setContentType NDJSON, .writeHeader StatusOK], ops⟩

/-! ### API records (method, path, max body, timeout) -/

/-- The static `API` value each constructor returns: method, path prefix,
maximum request-body size in bytes, timeout in seconds, and whether the
router performs verification. -/
structure API where
  method : String
  path : String
  maxBody : Nat
  timeoutSec : Int
  verify : Bool
deriving DecidableEq, Repr

def KiB : Nat := 1024
def MiB : Nat := 1024 * 1024

def assignPolicyAPI : API := ⟨"POST", "/v1/policy/assign/", 1 * KiB, 15, true⟩
def describePolicyAPI : API := ⟨"GET", "/v1/policy/describe/", 0, 15, true⟩
def readPolicyAPI : API := ⟨"GET", "/v1/policy/read/", 0, 15, true⟩
def writePolicyAPI : API := ⟨"POST", "/v1/policy/write/", 1 * MiB, 15, true⟩
def deletePolicyAPI : API := ⟨"DELETE", "/v1/policy/delete/", 0, 15, true⟩
def listPolicyAPI : API := ⟨"GET", "/v1/policy/list/", 0, 15, true⟩

/-- The edge constructors start from a 15s default and override it with
`config.APIConfig[APIPath].Timeout` when that entry exists and is
positive.  `cfg` is the configured timeout in seconds, `none` when no
`APIConfig` entry exists for the path. -/
def edgeTimeout (cfg : Option Int) : Int :=
  match cfg with
  | some c => if 0 < c then c else 15
  | none => 15

def edgeDescribePolicyAPI (cfg : Option Int) : API :=
  ⟨"GET", "/v1/policy/describe/", 0, edgeTimeout cfg, true⟩
def edgeReadPolicyAPI (cfg : Option Int) : API :=
  ⟨"GET", "/v1/policy/read/", 0, edgeTimeout cfg, true⟩
def edgeListPolicyAPI (cfg : Option Int) : API :=
  ⟨"GET", "/v1/policy/list/", 0, edgeTimeout cfg, true⟩

/-- Modelled from the spec: the surrounding router (not under `src/`)
bounds each request body by the API's `MaxBody` before invoking the
handler, rejecting oversized payloads before decoding is attempted. -/
def route (api : API) (bodySize : Nat) (run : Unit → HOut) : HOut :=
  if bodySize ≤ api.maxBody then run ()
  else ⟨some ⟨413, "request body too large"⟩, [], []⟩

/-! ### Theorems -/

/-- Claim C1: for every assign request whose target identity equals the
requester's own verified identity (a verified identity is never the
unknown sentinel), the assign operation fails as forbidden with the
self-assignment message and never mutates enclave state; the statement is
universally quantified over `a.adminRes`, so in particular when the vault
admin is the requester (admin target = admin requester) the reported
failure is still the forbidden self-assignment one, not the admin
bad-request one — the self check is evaluated before the admin check. -/
theorem assign_self_forbidden (a : AssignArgs) (n : String) (t : Identity)
    (hn : a.nameRes = .ok n) (hr : a.resolveRes = .ok ())
    (hv : a.verifyRes = .ok ()) (hd : a.decodeRes = .ok t)
    (hc : a.nameCheck t.value = none)
    (hk : a.self.IsUnknown = false) (hself : t = a.self) :
    (assignPolicy a).1.result =
      some ⟨StatusForbidden, "identity cannot assign policy to itself"⟩ ∧
    (assignPolicy a).2 = a.st ∧
    (assignPolicy a).1.ops =
      [.lockVaultR, .lockEnclaveW, .verifyRequest, .unlockEnclaveW, .unlockVaultR] := by
  subst hself
  simp [assignPolicy, hn, hr, hv, hd, hc, hk]

/-- Witness for C1 at a concrete input: the admin identity, authenticated
as itself, asks to assign policy "p" to itself; the vault admin accessor
returns that same identity; the failure is the forbidden self-assignment
one and the state is untouched. -/
theorem assign_self_forbidden_witness :
    (assignPolicy ⟨.ok "p", .ok (), .ok (), .ok ⟨"admin"⟩, fun _ => none,
        ⟨"admin"⟩, .ok ⟨"admin"⟩, ⟨[("p", ⟨[], [], 0, ⟨"root"⟩⟩)], []⟩⟩).1.result =
      some ⟨StatusForbidden, "identity cannot assign policy to itself"⟩ ∧
    (assignPolicy ⟨.ok "p", .ok (), .ok (), .ok ⟨"admin"⟩, fun _ => none,
        ⟨"admin"⟩, .ok ⟨"admin"⟩, ⟨[("p", ⟨[], [], 0, ⟨"root"⟩⟩)], []⟩⟩).2 =
      ⟨[("p", ⟨[], [], 0, ⟨"root"⟩⟩)], []⟩ := by
  have h := assign_self_forbidden
    ⟨.ok "p", .ok (), .ok (), .ok ⟨"admin"⟩, fun _ => none,
      ⟨"admin"⟩, .ok ⟨"admin"⟩, ⟨[("p", ⟨[], [], 0, ⟨"root"⟩⟩)], []⟩⟩
    "p" ⟨"admin"⟩ rfl rfl rfl rfl rfl (by decide) rfl
  exact ⟨h.1, h.2.1⟩

/-- Claim C2, counterexample: the claim says a target equal to the vault's
admin identity fails as bad-request *regardless of who the requester is*.
At this concrete input the requester is the admin identity itself and the
target is that same admin identity: the operation fails with status 403
(forbidden, self-assignment), not with any status-400 bad-request, because
the self check is evaluated before the admin check. -/
theorem assign_admin_target_counterexample :
    (assignPolicy ⟨.ok "p", .ok (), .ok (), .ok ⟨"admin"⟩, fun _ => none,
        ⟨"admin"⟩, .ok ⟨"admin"⟩, ⟨[("p", ⟨[], [], 0, ⟨"root"⟩⟩)], []⟩⟩).1.result =
      some ⟨StatusForbidden, "identity cannot assign policy to itself"⟩ ∧
    StatusForbidden ≠ StatusBadRequest := by
  constructor
  · decide
  · decide

/-- Claim C2 (amended): a target identity equal to the unknown-identity
sentinel makes assign fail as bad-request before the self and admin checks
are even consulted (the statement holds for every `a.self` and every
`a.adminRes`); a target equal to the vault's admin identity and different
from the requester makes assign fail as bad-request; in both cases no
enclave state is mutated.  When the requester *is* the admin target, the
self check fires first and the failure is forbidden (see the C1 theorem),
which is the one exception to "regardless of requester". -/
theorem assign_admin_or_unknown_bad_request (a : AssignArgs) (n : String)
    (t adm : Identity)
    (hn : a.nameRes = .ok n) (hr : a.resolveRes = .ok ())
    (hv : a.verifyRes = .ok ()) (hd : a.decodeRes = .ok t)
    (hc : a.nameCheck t.value = none) :
    (t.IsUnknown = true →
      (assignPolicy a).1.result = some ⟨StatusBadRequest, "identity is unknown"⟩ ∧
      (assignPolicy a).2 = a.st) ∧
    (t.IsUnknown = false → a.self ≠ t → a.adminRes = .ok adm → adm = t →
      (assignPolicy a).1.result =
        some ⟨StatusBadRequest, "cannot assign policy to system admin"⟩ ∧
      (assignPolicy a).2 = a.st) := by
  constructor
  · intro hu
    simp [assignPolicy, hn, hr, hv, hd, hc, hu]
  · intro hu hne hadm heq
    subst heq
    simp [assignPolicy, hn, hr, hv, hd, hc, hu, hadm, hne]

/-- Witness for the amended C2 at concrete inputs: (1) target = unknown
sentinel (empty identity), requester "user", fails bad-request/unknown;
(2) target = admin "root", requester "user" ≠ target, fails
bad-request/admin.  In both runs the enclave state is returned
unchanged. -/
theorem assign_admin_or_unknown_bad_request_witness :
    ((assignPolicy ⟨.ok "p", .ok (), .ok (), .ok ⟨""⟩, fun _ => none,
        ⟨"user"⟩, .ok ⟨"root"⟩, ⟨[("p", ⟨[], [], 0, ⟨"root"⟩⟩)], []⟩⟩).1.result =
      some ⟨StatusBadRequest, "identity is unknown"⟩ ∧
     (assignPolicy ⟨.ok "p", .ok (), .ok (), .ok ⟨""⟩, fun _ => none,
        ⟨"user"⟩, .ok ⟨"root"⟩, ⟨[("p", ⟨[], [], 0, ⟨"root"⟩⟩)], []⟩⟩).2 =
      ⟨[("p", ⟨[], [], 0, ⟨"root"⟩⟩)], []⟩) ∧
    ((assignPolicy ⟨.ok "p", .ok (), .ok (), .ok ⟨"root"⟩, fun _ => none,
        ⟨"user"⟩, .ok ⟨"root"⟩, ⟨[("p", ⟨[], [], 0, ⟨"root"⟩⟩)], []⟩⟩).1.result =
      some ⟨StatusBadRequest, "cannot assign policy to system admin"⟩ ∧
     (assignPolicy ⟨.ok "p", .ok (), .ok (), .ok ⟨"root"⟩, fun _ => none,
        ⟨"user"⟩, .ok ⟨"root"⟩, ⟨[("p", ⟨[], [], 0, ⟨"root"⟩⟩)], []⟩⟩).2 =
      ⟨[("p", ⟨[], [], 0, ⟨"root"⟩⟩)], []⟩) := by
  constructor
  · exact (assign_admin_or_unknown_bad_request
      ⟨.ok "p", .ok (), .ok (), .ok ⟨""⟩, fun _ => none,
        ⟨"user"⟩, .ok ⟨"root"⟩, ⟨[("p", ⟨[], [], 0, ⟨"root"⟩⟩)], []⟩⟩
      "p" ⟨""⟩ ⟨"root"⟩ rfl rfl rfl rfl rfl).1 (by decide)
  · exact (assign_admin_or_unknown_bad_request
      ⟨.ok "p", .ok (), .ok (), .ok ⟨"root"⟩, fun _ => none,
        ⟨"user"⟩, .ok ⟨"root"⟩, ⟨[("p", ⟨[], [], 0, ⟨"root"⟩⟩)], []⟩⟩
      "p" ⟨"root"⟩ ⟨"root"⟩ rfl rfl rfl rfl rfl).2 (by decide) (by decide) rfl rfl

/-- Reading a name back right after it was written yields exactly the
written policy. -/
theorem getPolicy_setPolicy_self (st : EnclaveSt) (n : String) (p : Policy) :
    (st.setPolicy n p).getPolicy n = .ok p := by
  simp [EnclaveSt.setPolicy, EnclaveSt.getPolicy, List.lookup]

/-- Claim C6: a successful write stores, under the requested name, exactly
the policy built from the request body's allow/deny lists with `createdAt`
the current time of the write and `createdBy` the verified requester
identity, wholly replacing any previous policy under that name; and after
a second successful write `b` of the same name on the resulting state,
only the second version is readable, with `createdAt`/`createdBy` from the
second write. -/
theorem write_replaces_policy (a b : WriteArgs) (n : String)
    (al dn al2 dn2 : List String)
    (ha1 : a.nameRes = .ok n) (ha2 : a.resolveRes = .ok ())
    (ha3 : a.verifyRes = .ok ()) (ha4 : a.decodeRes = .ok (al, dn))
    (ha5 : a.setRes = none)
    (hb1 : b.nameRes = .ok n) (hb2 : b.resolveRes = .ok ())
    (hb3 : b.verifyRes = .ok ()) (hb4 : b.decodeRes = .ok (al2, dn2))
    (hb5 : b.setRes = none)
    (hbst : b.st = (writePolicy a).2) :
    (writePolicy a).1.result = none ∧
    (writePolicy a).2 = a.st.setPolicy n ⟨al, dn, a.now, a.self⟩ ∧
    ((writePolicy a).2).getPolicy n = .ok ⟨al, dn, a.now, a.self⟩ ∧
    (writePolicy b).2 = ((writePolicy a).2).setPolicy n ⟨al2, dn2, b.now, b.self⟩ ∧
    ((writePolicy b).2).getPolicy n = .ok ⟨al2, dn2, b.now, b.self⟩ := by
  have hwa : writePolicy a =
      (⟨none, [.writeHeader StatusOK],
        [.lockVaultR, .lockEnclaveW, .verifyRequest, .stateOp "SetPolicy",
         .unlockEnclaveW, .unlockVaultR]⟩,
       a.st.setPolicy n ⟨al, dn, a.now, a.self⟩) := by
    simp [writePolicy, ha1, ha2, ha3, ha4, ha5]
  have hwb : (writePolicy b).2 =
      ((writePolicy a).2).setPolicy n ⟨al2, dn2, b.now, b.self⟩ := by
    rw [← hbst]
    simp [writePolicy, hb1, hb2, hb3, hb4, hb5]
  refine ⟨by rw [hwa], by rw [hwa], ?_, hwb, ?_⟩
  · rw [hwa]
    exact getPolicy_setPolicy_self _ _ _
  · rw [hwb]
    exact getPolicy_setPolicy_self _ _ _

/-- Witness for C6 at a concrete input: policy "p" is written twice on an
initially empty enclave — first as allow ["/v1/key/read/*"] by "alice" at
time 1, then as deny ["/v1/key/delete/*"] by "bob" at time 2; after the
second write only the second version is readable. -/
theorem write_replaces_policy_witness :
    ((writePolicy ⟨.ok "p", .ok (), .ok (), .ok (["/v1/key/read/*"], []), 1,
        ⟨"alice"⟩, none, ⟨[], []⟩⟩).2).getPolicy "p" =
      .ok ⟨["/v1/key/read/*"], [], 1, ⟨"alice"⟩⟩ ∧
    ((writePolicy ⟨.ok "p", .ok (), .ok (), .ok ([], ["/v1/key/delete/*"]), 2,
        ⟨"bob"⟩, none,
        (writePolicy ⟨.ok "p", .ok (), .ok (), .ok (["/v1/key/read/*"], []), 1,
          ⟨"alice"⟩, none, ⟨[], []⟩⟩).2⟩).2).getPolicy "p" =
      .ok ⟨[], ["/v1/key/delete/*"], 2, ⟨"bob"⟩⟩ := by
  have h := write_replaces_policy
    ⟨.ok "p", .ok (), .ok (), .ok (["/v1/key/read/*"], []), 1, ⟨"alice"⟩, none,
      ⟨[], []⟩⟩
    ⟨.ok "p", .ok (), .ok (), .ok ([], ["/v1/key/delete/*"]), 2, ⟨"bob"⟩, none,
      (writePolicy ⟨.ok "p", .ok (), .ok (), .ok (["/v1/key/read/*"], []), 1,
        ⟨"alice"⟩, none, ⟨[], []⟩⟩).2⟩
    "p" ["/v1/key/read/*"] [] [] ["/v1/key/delete/*"]
    rfl rfl rfl rfl rfl rfl rfl rfl rfl rfl rfl
  exact ⟨h.2.2.1, h.2.2.2.2⟩

/-- Claim C10: for every describe and read request (enclave and edge
variants) in which the policy lookup succeeds, the handler's outcome is
fixed — success result, content type, 200 header, then the response
record — for *every* value of the discarded encoder outcome `encodeRes`:
a post-commit encoding failure can never surface as a handler error. -/
theorem describe_read_success_unconditional :
    (∀ (a : GetArgs) (n : String) (p : Policy),
      a.nameRes = .ok n → a.resolveRes = .ok () → a.verifyRes = .ok () →
      a.st.getPolicy n = .ok p →
      describePolicy a =
        ⟨none,
         [.setContentType "application/json", .writeHeader StatusOK,
          .record (.meta p.createdAt p.createdBy)],
         [.lockVaultR, .lockEnclaveR, .verifyRequest, .stateOp "GetPolicy",
          .unlockEnclaveR, .unlockVaultR]⟩) ∧
    (∀ (a : GetArgs) (n : String) (p : Policy),
      a.nameRes = .ok n → a.resolveRes = .ok () → a.verifyRes = .ok () →
      a.st.getPolicy n = .ok p →
      readPolicy a =
        ⟨none,
         [.setContentType "application/json", .writeHeader StatusOK,
          .record (.full p.allow p.deny p.createdAt p.createdBy)],
         [.lockVaultR, .lockEnclaveR, .verifyRequest, .stateOp "GetPolicy",
          .unlockEnclaveR, .unlockVaultR]⟩) ∧
    (∀ (a : EdgeGetArgs) (n : String) (p : Policy),
      a.nameRes = .ok n → a.verifyRes = .ok () → a.st.getPolicy n = .ok p →
      edgeDescribePolicy a =
        ⟨none,
         [.setContentType "application/json", .writeHeader StatusOK,
          .record (.meta p.createdAt p.createdBy)],
         [.verifyRequest, .stateOp "Get"]⟩) ∧
    (∀ (a : EdgeGetArgs) (n : String) (p : Policy),
      a.nameRes = .ok n → a.verifyRes = .ok () → a.st.getPolicy n = .ok p →
      edgeReadPolicy a =
        ⟨none,
         [.setContentType "application/json", .writeHeader StatusOK,
          .record (.full p.allow p.deny p.createdAt p.createdBy)],
         [.verifyRequest, .stateOp "Get"]⟩) := by
  refine ⟨?_, ?_, ?_, ?_⟩
  · intro a n p h1 h2 h3 h4
    simp [describePolicy, h1, h2, h3, h4]
  · intro a n p h1 h2 h3 h4
    simp [readPolicy, h1, h2, h3, h4]
  · intro a n p h1 h2 h3
    simp [edgeDescribePolicy, h1, h2, h3]
  · intro a n p h1 h2 h3
    simp [edgeReadPolicy, h1, h2, h3]

/-- Witness for C10 at a concrete input: describing and reading policy
"p" with a *failing* encoder (`encodeRes = some ⟨500, "broken pipe"⟩`)
still reports success with the full wire trace, in all four handlers. -/
theorem describe_read_success_unconditional_witness :
    (describePolicy ⟨.ok "p", .ok (), .ok (),
        ⟨[("p", ⟨["/a"], ["/b"], 7, ⟨"alice"⟩⟩)], []⟩,
        some ⟨500, "broken pipe"⟩⟩).result = none ∧
    (readPolicy ⟨.ok "p", .ok (), .ok (),
        ⟨[("p", ⟨["/a"], ["/b"], 7, ⟨"alice"⟩⟩)], []⟩,
        some ⟨500, "broken pipe"⟩⟩).result = none ∧
    (edgeDescribePolicy ⟨.ok "p", .ok (),
        ⟨[("p", ⟨["/a"], ["/b"], 7, ⟨"alice"⟩⟩)], []⟩,
        some ⟨500, "broken pipe"⟩⟩).result = none ∧
    (edgeReadPolicy ⟨.ok "p", .ok (),
        ⟨[("p", ⟨["/a"], ["/b"], 7, ⟨"alice"⟩⟩)], []⟩,
        some ⟨500, "broken pipe"⟩⟩).result = none := by
  refine ⟨?_, ?_, ?_, ?_⟩
  · rw [describe_read_success_unconditional.1
      ⟨.ok "p", .ok (), .ok (), ⟨[("p", ⟨["/a"], ["/b"], 7, ⟨"alice"⟩⟩)], []⟩,
        some ⟨500, "broken pipe"⟩⟩
      "p" ⟨["/a"], ["/b"], 7, ⟨"alice"⟩⟩ rfl rfl rfl rfl]
  · rw [describe_read_success_unconditional.2.1
      ⟨.ok "p", .ok (), .ok (), ⟨[("p", ⟨["/a"], ["/b"], 7, ⟨"alice"⟩⟩)], []⟩,
        some ⟨500, "broken pipe"⟩⟩
      "p" ⟨["/a"], ["/b"], 7, ⟨"alice"⟩⟩ rfl rfl rfl rfl]
  · rw [describe_read_success_unconditional.2.2.1
      ⟨.ok "p", .ok (), ⟨[("p", ⟨["/a"], ["/b"], 7, ⟨"alice"⟩⟩)], []⟩,
        some ⟨500, "broken pipe"⟩⟩
      "p" ⟨["/a"], ["/b"], 7, ⟨"alice"⟩⟩ rfl rfl rfl]
  · rw [describe_read_success_unconditional.2.2.2
      ⟨.ok "p", .ok (), ⟨[("p", ⟨["/a"], ["/b"], 7, ⟨"alice"⟩⟩)], []⟩,
        some ⟨500, "broken pipe"⟩⟩
      "p" ⟨["/a"], ["/b"], 7, ⟨"alice"⟩⟩ rfl rfl rfl]

/-! ### Lemmas about the list loops -/

/-- The boolean component of `path.Match` that the loop consults. -/
def matchedF (pm : String → String → Bool × Bool) (pat : String) (n : String) :
    Bool :=
  (pm pat n).1

/-- The `{name, created_at, created_by}` record the loop encodes for a
name whose fetch succeeds. -/
def mkItem (getP : String → Except Err Policy) (n : String) : Rec :=
  match getP n with
  | .ok p => .item n p.createdAt p.createdBy
  | .error e => .errRec e.message

theorem listLoop_nil (pm : String → String → Bool × Bool) (pat : String)
    (getP : String → Except Err Policy) (enc : Rec → Option Err) (hw : Bool) :
    listLoop pm pat getP enc [] hw = (hw, [], [], none) := rfl

theorem listLoop_cons_skip (pm : String → String → Bool × Bool) (pat : String)
    (getP : String → Except Err Policy) (enc : Rec → Option Err)
    (n : String) (rest : List String) (hw : Bool)
    (h : (pm pat n).1 = false) :
    listLoop pm pat getP enc (n :: rest) hw =
      listLoop pm pat getP enc rest hw := by
  simp [listLoop, h]

/-- The loop only consults the boolean component of the iterator names'
match results, so it only depends on `names.filter (matchedF pm pat)`. -/
theorem listLoop_filter (pm : String → String → Bool × Bool) (pat : String)
    (getP : String → Except Err Policy) (enc : Rec → Option Err) :
    ∀ (names : List String) (hw : Bool),
      listLoop pm pat getP enc names hw =
        listLoop pm pat getP enc (names.filter (matchedF pm pat)) hw := by
  intro names
  induction names with
  | nil => intro hw; rfl
  | cons n rest ih =>
    intro hw
    by_cases h : (pm pat n).1 = false
    · rw [listLoop_cons_skip pm pat getP enc n rest hw h, ih hw]
      have hm : matchedF pm pat n = false := h
      simp [List.filter_cons, hm]
    · have hm : matchedF pm pat n = true := by
        simpa [matchedF] using h
      have hmm : (pm pat n).1 = true := hm
      simp only [listLoop, hmm, Bool.true_eq_false, if_false, List.filter_cons, hm,
        if_true]
      rw [ih true]

/-- Once the loop has written, it stays written. -/
theorem listLoop_hw_mono (pm : String → String → Bool × Bool) (pat : String)
    (getP : String → Except Err Policy) (enc : Rec → Option Err) :
    ∀ (names : List String), (listLoop pm pat getP enc names true).1 = true := by
  intro names
  induction names with
  | nil => rfl
  | cons n rest ih =>
    by_cases h : (pm pat n).1 = false
    · rw [listLoop_cons_skip pm pat getP enc n rest true h]; exact ih
    · have hmm : (pm pat n).1 = true := by simpa using h
      rcases hg : getP n with e | p
      · simp [listLoop, hmm, hg]
      · rcases he : enc (Rec.item n p.createdAt p.createdBy) with _ | e
        · simpa [listLoop, hmm, hg, he] using ih
        · simp [listLoop, hmm, hg, he]

/-- If the loop reports an error, it has written (the header is committed
before the fetch, and an encode failure follows a record write). -/
theorem listLoop_err_hw (pm : String → String → Bool × Bool) (pat : String)
    (getP : String → Except Err Policy) (enc : Rec → Option Err) :
    ∀ (names : List String) (hw : Bool),
      (listLoop pm pat getP enc names hw).2.2.2.isSome = true →
      (listLoop pm pat getP enc names hw).1 = true := by
  intro names
  induction names with
  | nil => intro hw h; simp [listLoop_nil] at h
  | cons n rest ih =>
    intro hw h
    by_cases hm : (pm pat n).1 = false
    · rw [listLoop_cons_skip pm pat getP enc n rest hw hm] at h ⊢
      exact ih hw h
    · have hmm : (pm pat n).1 = true := by simpa using hm
      rcases hg : getP n with e | p
      · simp [listLoop, hmm, hg]
      · rcases he : enc (Rec.item n p.createdAt p.createdBy) with _ | e
        · simp [listLoop, hmm, hg, he]
          exact listLoop_hw_mono pm pat getP enc rest
        · simp [listLoop, hmm, hg, he]

/-- If the loop ends not-written, it wrote nothing, encountered no error,
and was not written to begin with. -/
theorem listLoop_not_written (pm : String → String → Bool × Bool) (pat : String)
    (getP : String → Except Err Policy) (enc : Rec → Option Err) :
    ∀ (names : List String) (hw : Bool),
      (listLoop pm pat getP enc names hw).1 = false →
      (listLoop pm pat getP enc names hw).2.1 = [] ∧
      (listLoop pm pat getP enc names hw).2.2.2 = none ∧ hw = false := by
  intro names
  induction names with
  | nil => intro hw h; simp [listLoop_nil] at h ⊢; exact h
  | cons n rest ih =>
    intro hw h
    by_cases hm : (pm pat n).1 = false
    · rw [listLoop_cons_skip pm pat getP enc n rest hw hm] at h ⊢
      exact ih hw h
    · have hmm : (pm pat n).1 = true := by simpa using hm
      rcases hg : getP n with e | p
      · simp [listLoop, hmm, hg] at h
      · rcases he : enc (Rec.item n p.createdAt p.createdBy) with _ | e
        · simp only [listLoop, hmm, Bool.true_eq_false, if_false, hg, he] at h
          rw [listLoop_hw_mono pm pat getP enc rest] at h
          exact absurd h (by decide)
        · simp [listLoop, hmm, hg, he] at h

/-- Entered already-written, the loop emits only `record` wire events. -/
theorem listLoop_records_only (pm : String → String → Bool × Bool) (pat : String)
    (getP : String → Except Err Policy) (enc : Rec → Option Err) :
    ∀ (names : List String),
      ∀ ev ∈ (listLoop pm pat getP enc names true).2.1, ∃ r, ev = .record r := by
  intro names
  induction names with
  | nil => intro ev h; simp [listLoop_nil] at h
  | cons n rest ih =>
    intro ev h
    by_cases hm : (pm pat n).1 = false
    · rw [listLoop_cons_skip pm pat getP enc n rest true hm] at h
      exact ih ev h
    · have hmm : (pm pat n).1 = true := by simpa using hm
      rcases hg : getP n with e | p
      · simp [listLoop, hmm, hg] at h
      · rcases he : enc (Rec.item n p.createdAt p.createdBy) with _ | e
        · simp [listLoop, hmm, hg, he] at h
          rcases h with h | h
          · exact ⟨_, h⟩
          · exact ih ev h
        · simp [listLoop, hmm, hg, he] at h
          exact ⟨_, h⟩

/-- The loop's op-trace consists of state operations only. -/
theorem listLoop_ops_state (pm : String → String → Bool × Bool) (pat : String)
    (getP : String → Except Err Policy) (enc : Rec → Option Err) :
    ∀ (names : List String) (hw : Bool),
      ∀ ev ∈ (listLoop pm pat getP enc names hw).2.2.1, ∃ s, ev = .stateOp s := by
  intro names
  induction names with
  | nil => intro hw ev h; simp [listLoop_nil] at h
  | cons n rest ih =>
    intro hw ev h
    by_cases hm : (pm pat n).1 = false
    · rw [listLoop_cons_skip pm pat getP enc n rest hw hm] at h
      exact ih hw ev h
    · have hmm : (pm pat n).1 = true := by simpa using hm
      rcases hg : getP n with e | p
      · simp [listLoop, hmm, hg] at h
        exact ⟨_, h⟩
      · rcases he : enc (Rec.item n p.createdAt p.createdBy) with _ | e
        · simp [listLoop, hmm, hg, he] at h
          rcases h with h | h
          · exact ⟨_, h⟩
          · exact ih true ev h
        · simp [listLoop, hmm, hg, he] at h
          exact ⟨_, h⟩

/-- Entered already-written, the loop on a run of successfully fetched and
encoded names prepends one record and one state op per name. -/
theorem listLoop_all_ok_append (pm : String → String → Bool × Bool) (pat : String)
    (getP : String → Except Err Policy) (enc : Rec → Option Err) :
    ∀ (ms suffix : List String),
      (∀ m ∈ ms, (pm pat m).1 = true) →
      (∀ m ∈ ms, ∃ p, getP m = .ok p ∧ enc (.item m p.createdAt p.createdBy) = none) →
      listLoop pm pat getP enc (ms ++ suffix) true =
        ((listLoop pm pat getP enc suffix true).1,
         ms.map (fun m => .record (mkItem getP m)) ++
           (listLoop pm pat getP enc suffix true).2.1,
         ms.map (fun _ => OpEvent.stateOp "GetPolicy") ++
           (listLoop pm pat getP enc suffix true).2.2.1,
         (listLoop pm pat getP enc suffix true).2.2.2) := by
  intro ms
  induction ms with
  | nil => intro suffix hm hok; simp
  | cons m ms ih =>
    intro suffix hm hok
    have hmm : (pm pat m).1 = true := hm m (List.mem_cons_self m ms)
    obtain ⟨p, hg, he⟩ := hok m (List.mem_cons_self m ms)
    have hmk : mkItem getP m = .item m p.createdAt p.createdBy := by
      simp [mkItem, hg]
    have h1 : ∀ x ∈ ms, (pm pat x).1 = true :=
      fun x hx => hm x (List.mem_cons_of_mem m hx)
    have h2 : ∀ x ∈ ms,
        ∃ p, getP x = .ok p ∧ enc (.item x p.createdAt p.createdBy) = none :=
      fun x hx => hok x (List.mem_cons_of_mem m hx)
    simp [listLoop, hmm, hg, he, ih suffix h1 h2, hmk]

/-- Started not-yet-written on a matching first name, the loop emits the
content type and the 200 header first, then only records, and ends
written. -/
theorem listLoop_first_match (pm : String → String → Bool × Bool) (pat : String)
    (getP : String → Except Err Policy) (enc : Rec → Option Err)
    (n : String) (ms : List String) (hn : (pm pat n).1 = true) :
    ∃ w, (listLoop pm pat getP enc (n :: ms) false).2.1 =
        .setContentType NDJSON :: .writeHeader StatusOK :: w ∧
      (∀ ev ∈ w, ∃ r, ev = .record r) ∧
      (listLoop pm pat getP enc (n :: ms) false).1 = true := by
  rcases hg : getP n with e | p
  · refine ⟨[], by simp [listLoop, hn, hg], by simp, by simp [listLoop, hn, hg]⟩
  · rcases he : enc (Rec.item n p.createdAt p.createdBy) with _ | e
    · refine ⟨.record (.item n p.createdAt p.createdBy) ::
        (listLoop pm pat getP enc ms true).2.1,
        by simp [listLoop, hn, hg, he], ?_, ?_⟩
      · intro ev h
        rcases List.mem_cons.mp h with h1 | h1
        · exact ⟨_, h1⟩
        · exact listLoop_records_only pm pat getP enc ms ev h1
      · simp [listLoop, hn, hg, he, listLoop_hw_mono]
    · exact ⟨[.record (.item n p.createdAt p.createdBy)],
        by simp [listLoop, hn, hg, he], by simp, by simp [listLoop, hn, hg, he]⟩

/-- Claim C5: (i) the streaming list handler's outcome depends only on the
pattern-matching names — non-matching names are silently skipped and do
not count as written; (ii) when no name matches and the iterator closes
cleanly, the response is a clean success: a bare 200 status, no content
type, no records; (iii) when some name matches, the content-type header
and the 200 status header are emitted at the first matching name, before
anything else, and everything after them is a record. -/
theorem list_header_on_first_match (a : ListArgs) (pat : String)
    (names : List String)
    (hpat : a.patternRes = .ok pat) (hres : a.resolveRes = .ok ())
    (hver : a.verifyRes = .ok ()) (hlist : a.listRes = .ok names) :
    (listPolicy a =
      listPolicy { a with listRes := .ok (names.filter (matchedF a.pmatch pat)) }) ∧
    (names.filter (matchedF a.pmatch pat) = [] → a.closeRes = none →
      listPolicy a =
        ⟨none, [.writeHeader StatusOK],
         [.lockVaultR, .lockEnclaveR, .verifyRequest, .stateOp "ListPolicies",
          .unlockEnclaveR, .unlockVaultR]⟩) ∧
    (∀ n ms, names.filter (matchedF a.pmatch pat) = n :: ms →
      ∃ w, (listPolicy a).wire =
          .setContentType NDJSON :: .writeHeader StatusOK :: w ∧
        ∀ ev ∈ w, ∃ r, ev = .record r) := by
  refine ⟨?_, ?_, ?_⟩
  · simp only [listPolicy, hpat, hres, hver, hlist]
    rw [listLoop_filter a.pmatch pat a.getP a.enc names false]
  · intro hfil hclose
    simp only [listPolicy, hpat, hres, hver, hlist]
    rw [listLoop_filter a.pmatch pat a.getP a.enc names false, hfil]
    simp [listLoop_nil, hclose]
  · intro n ms hfil
    have hn : (a.pmatch pat n).1 = true := by
      have : n ∈ names.filter (matchedF a.pmatch pat) := by
        rw [hfil]; exact List.mem_cons_self n ms
      simpa [matchedF] using List.of_mem_filter this
    obtain ⟨w, hwire, hrec, hhw⟩ :=
      listLoop_first_match a.pmatch pat a.getP a.enc n ms hn
    have hloop := listLoop_filter a.pmatch pat a.getP a.enc names false
    rw [hfil] at hloop
    simp only [listPolicy, hpat, hres, hver, hlist, hloop]
    rcases hr : (listLoop a.pmatch pat a.getP a.enc (n :: ms) false).2.2.2 with _ | e
    · rcases hclose : a.closeRes with _ | e2
      · refine ⟨w, ?_, hrec⟩
        simp [hr, hhw, hclose, hwire]
      · refine ⟨w ++ [.record (.errRec e2.message)], ?_, ?_⟩
        · simp [hr, hhw, hclose, hwire]
        · intro ev h
          rcases List.mem_append.mp h with h1 | h1
          · exact hrec ev h1
          · simp at h1
            exact ⟨_, h1⟩
    · refine ⟨w ++ [.record (.errRec e.message)], ?_, ?_⟩
      · simp [hr, hhw, hwire]
      · intro ev h
        rcases List.mem_append.mp h with h1 | h1
        · exact hrec ev h1
        · simp at h1
          exact ⟨_, h1⟩

/-- Witness for C5 at concrete inputs: over iterator names `["other"]`
with a match function rejecting everything and a clean close, the
response is exactly a bare 200 with empty body; over `["p1"]` with a
match function accepting everything, the wire begins with the content
type and the 200 header and continues with records only. -/
theorem list_header_on_first_match_witness :
    (listPolicy ⟨.ok "*", .ok (), .ok (), .ok ["other"], fun _ _ => (false, false),
        fun _ => .error ⟨404, "nf"⟩, fun _ => none, none⟩ =
      ⟨none, [.writeHeader StatusOK],
       [.lockVaultR, .lockEnclaveR, .verifyRequest, .stateOp "ListPolicies",
        .unlockEnclaveR, .unlockVaultR]⟩) ∧
    (∃ w, (listPolicy ⟨.ok "*", .ok (), .ok (), .ok ["p1"], fun _ _ => (true, false),
        fun _ => .ok ⟨[], [], 3, ⟨"alice"⟩⟩, fun _ => none, none⟩).wire =
        .setContentType NDJSON :: .writeHeader StatusOK :: w ∧
      ∀ ev ∈ w, ∃ r, ev = .record r) := by
  constructor
  · exact (list_header_on_first_match
      ⟨.ok "*", .ok (), .ok (), .ok ["other"], fun _ _ => (false, false),
        fun _ => .error ⟨404, "nf"⟩, fun _ => none, none⟩
      "*" ["other"] rfl rfl rfl rfl).2.1 rfl rfl
  · exact (list_header_on_first_match
      ⟨.ok "*", .ok (), .ok (), .ok ["p1"], fun _ _ => (true, false),
        fun _ => .ok ⟨[], [], 3, ⟨"alice"⟩⟩, fun _ => none, none⟩
      "*" ["p1"] rfl rfl rfl rfl).2.2 "p1" [] rfl

/-- Claim C3: in the streaming list handler, (A) when a matched policy's
metadata fetch fails — which is necessarily after the success header was
committed, since the header is written at the first match before its
fetch — the handler's wire is exactly the content type, the 200 header,
one record per previously fetched match, and one final `{error}` record,
and the handler returns success (the status is never downgraded to an
error status); (B) the same already-written branch applies to an error
returned by closing the iterator after all matches were emitted. -/
theorem list_partial_failure_in_body (a : ListArgs) (pat : String)
    (names : List String)
    (hpat : a.patternRes = .ok pat) (hres : a.resolveRes = .ok ())
    (hver : a.verifyRes = .ok ()) (hlist : a.listRes = .ok names) :
    (∀ ms n rest e,
      names.filter (matchedF a.pmatch pat) = ms ++ n :: rest →
      (∀ m ∈ ms, ∃ p, a.getP m = .ok p ∧
        a.enc (.item m p.createdAt p.createdBy) = none) →
      a.getP n = .error e →
      listPolicy a =
        ⟨none,
         .setContentType NDJSON :: .writeHeader StatusOK ::
           (ms.map (fun m => .record (mkItem a.getP m)) ++
             [.record (.errRec e.message)]),
         [.lockVaultR, .lockEnclaveR, .verifyRequest, .stateOp "ListPolicies"] ++
           (ms.map (fun _ => OpEvent.stateOp "GetPolicy") ++ [.stateOp "GetPolicy"]) ++
           [.unlockEnclaveR, .unlockVaultR]⟩) ∧
    (∀ m0 ms e,
      names.filter (matchedF a.pmatch pat) = m0 :: ms →
      (∀ m ∈ m0 :: ms, ∃ p, a.getP m = .ok p ∧
        a.enc (.item m p.createdAt p.createdBy) = none) →
      a.closeRes = some e →
      listPolicy a =
        ⟨none,
         .setContentType NDJSON :: .writeHeader StatusOK ::
           ((m0 :: ms).map (fun m => .record (mkItem a.getP m)) ++
             [.record (.errRec e.message)]),
         [.lockVaultR, .lockEnclaveR, .verifyRequest, .stateOp "ListPolicies"] ++
           (m0 :: ms).map (fun _ => OpEvent.stateOp "GetPolicy") ++
           [.unlockEnclaveR, .unlockVaultR]⟩) := by
  constructor
  · intro ms n rest e hfil hok hfail
    have hmem : ∀ m ∈ ms ++ n :: rest, (a.pmatch pat m).1 = true := by
      intro m hm
      have : m ∈ names.filter (matchedF a.pmatch pat) := by rw [hfil]; exact hm
      simpa [matchedF] using List.of_mem_filter this
    have hn : (a.pmatch pat n).1 = true :=
      hmem n (List.mem_append.mpr (Or.inr (List.mem_cons_self n rest)))
    have hloop := listLoop_filter a.pmatch pat a.getP a.enc names false
    rw [hfil] at hloop
    rcases ms with _ | ⟨m0, ms'⟩
    · simp only [List.nil_append] at hloop
      simp [listPolicy, hpat, hres, hver, hlist, hloop, listLoop, hn, hfail]
    · have hm0 : (a.pmatch pat m0).1 = true :=
        hmem m0 (List.mem_append.mpr (Or.inl (List.mem_cons_self m0 ms')))
      obtain ⟨p0, hg0, he0⟩ := hok m0 (List.mem_cons_self m0 ms')
      have htail := listLoop_all_ok_append a.pmatch pat a.getP a.enc ms' (n :: rest)
        (fun x hx => hmem x (List.mem_append.mpr
          (Or.inl (List.mem_cons_of_mem m0 hx))))
        (fun x hx => hok x (List.mem_cons_of_mem m0 hx))
      have hsuffix : listLoop a.pmatch pat a.getP a.enc (n :: rest) true =
          (true, [], [.stateOp "GetPolicy"], some e) := by
        simp [listLoop, hn, hfail]
      rw [hsuffix] at htail
      have hmk0 : mkItem a.getP m0 = .item m0 p0.createdAt p0.createdBy := by
        simp [mkItem, hg0]
      have hcons : listLoop a.pmatch pat a.getP a.enc ((m0 :: ms') ++ n :: rest) false =
          (true,
           .setContentType NDJSON :: .writeHeader StatusOK ::
             (.record (mkItem a.getP m0) ::
               ms'.map (fun m => .record (mkItem a.getP m))),
           .stateOp "GetPolicy" ::
             (ms'.map (fun _ => OpEvent.stateOp "GetPolicy") ++ [.stateOp "GetPolicy"]),
           some e) := by
        simp [listLoop, hm0, hg0, he0, htail, hmk0]
      rw [hcons] at hloop
      simp [listPolicy, hpat, hres, hver, hlist, hloop]
  · intro m0 ms e hfil hok hclose
    have hmem : ∀ m ∈ m0 :: ms, (a.pmatch pat m).1 = true := by
      intro m hm
      have : m ∈ names.filter (matchedF a.pmatch pat) := by rw [hfil]; exact hm
      simpa [matchedF] using List.of_mem_filter this
    have hm0 : (a.pmatch pat m0).1 = true := hmem m0 (List.mem_cons_self m0 ms)
    obtain ⟨p0, hg0, he0⟩ := hok m0 (List.mem_cons_self m0 ms)
    have hloop := listLoop_filter a.pmatch pat a.getP a.enc names false
    rw [hfil] at hloop
    have htail := listLoop_all_ok_append a.pmatch pat a.getP a.enc ms []
      (fun x hx => hmem x (List.mem_cons_of_mem m0 hx))
      (fun x hx => hok x (List.mem_cons_of_mem m0 hx))
    simp only [List.append_nil, listLoop_nil] at htail
    have hmk0 : mkItem a.getP m0 = .item m0 p0.createdAt p0.createdBy := by
      simp [mkItem, hg0]
    have hcons : listLoop a.pmatch pat a.getP a.enc (m0 :: ms) false =
        (true,
         .setContentType NDJSON :: .writeHeader StatusOK ::
           (.record (mkItem a.getP m0) ::
             ms.map (fun m => .record (mkItem a.getP m))),
         .stateOp "GetPolicy" :: ms.map (fun _ => OpEvent.stateOp "GetPolicy"),
         none) := by
      simp [listLoop, hm0, hg0, he0, htail, hmk0]
    rw [hcons] at hloop
    simp [listPolicy, hpat, hres, hver, hlist, hloop, hclose]

/-- Witness for C3 at concrete inputs.  Run one: names `["p1", "p2"]`,
match-all pattern, p1 fetches fine, p2's fetch fails with "boom" — the
stream is the headers, p1's record, and one final error record, with a
success result.  Run two: names `["p1"]`, everything fetches fine but the
iterator close fails with "close fail" — same in-body terminal error
record, success result. -/
theorem list_partial_failure_in_body_witness :
    (listPolicy ⟨.ok "*", .ok (), .ok (), .ok ["p1", "p2"], fun _ _ => (true, false),
        fun n => if n = "p1" then .ok ⟨[], [], 1, ⟨"alice"⟩⟩
                 else .error ⟨500, "boom"⟩,
        fun _ => none, none⟩ =
      ⟨none,
       [.setContentType NDJSON, .writeHeader StatusOK,
        .record (.item "p1" 1 ⟨"alice"⟩), .record (.errRec "boom")],
       [.lockVaultR, .lockEnclaveR, .verifyRequest, .stateOp "ListPolicies",
        .stateOp "GetPolicy", .stateOp "GetPolicy",
        .unlockEnclaveR, .unlockVaultR]⟩) ∧
    (listPolicy ⟨.ok "*", .ok (), .ok (), .ok ["p1"], fun _ _ => (true, false),
        fun _ => .ok ⟨[], [], 2, ⟨"bob"⟩⟩, fun _ => none,
        some ⟨500, "close fail"⟩⟩ =
      ⟨none,
       [.setContentType NDJSON, .writeHeader StatusOK,
        .record (.item "p1" 2 ⟨"bob"⟩), .record (.errRec "close fail")],
       [.lockVaultR, .lockEnclaveR, .verifyRequest, .stateOp "ListPolicies",
        .stateOp "GetPolicy", .unlockEnclaveR, .unlockVaultR]⟩) := by
  constructor
  · have h := (list_partial_failure_in_body
      ⟨.ok "*", .ok (), .ok (), .ok ["p1", "p2"], fun _ _ => (true, false),
        fun n => if n = "p1" then .ok ⟨[], [], 1, ⟨"alice"⟩⟩
                 else .error ⟨500, "boom"⟩,
        fun _ => none, none⟩
      "*" ["p1", "p2"] rfl rfl rfl rfl).1 ["p1"] "p2" [] ⟨500, "boom"⟩ rfl
      (by
        intro m hm
        simp at hm
        subst hm
        exact ⟨⟨[], [], 1, ⟨"alice"⟩⟩, rfl, rfl⟩)
      rfl
    rw [h]
    rfl
  · have h := (list_partial_failure_in_body
      ⟨.ok "*", .ok (), .ok (), .ok ["p1"], fun _ _ => (true, false),
        fun _ => .ok ⟨[], [], 2, ⟨"bob"⟩⟩, fun _ => none,
        some ⟨500, "close fail"⟩⟩
      "*" ["p1"] rfl rfl rfl rfl).2 "p1" [] ⟨500, "close fail"⟩ rfl
      (fun m _ => ⟨⟨[], [], 2, ⟨"bob"⟩⟩, rfl, rfl⟩) rfl
    rw [h]
    rfl

/-- The loop never reads the error component of the match result: any two
match functions agreeing on the boolean component drive it identically. -/
theorem listLoop_fst_congr (pm pm2 : String → String → Bool × Bool)
    (h : ∀ p n, (pm2 p n).1 = (pm p n).1) (pat : String)
    (getP : String → Except Err Policy) (enc : Rec → Option Err) :
    ∀ (names : List String) (hw : Bool),
      listLoop pm2 pat getP enc names hw = listLoop pm pat getP enc names hw := by
  intro names
  induction names with
  | nil => intro hw; rfl
  | cons n rest ih =>
    intro hw
    by_cases hm : (pm pat n).1 = false
    · rw [listLoop_cons_skip pm2 pat getP enc n rest hw (by rw [h]; exact hm),
        listLoop_cons_skip pm pat getP enc n rest hw hm]
      exact ih hw
    · have hmm : (pm pat n).1 = true := by simpa using hm
      have hmm2 : (pm2 pat n).1 = true := by rw [h]; exact hmm
      simp only [listLoop, hmm, hmm2, Bool.true_eq_false, if_false]
      rw [ih true]

/-- When no name matches, the loop does nothing. -/
theorem listLoop_all_unmatched (pm : String → String → Bool × Bool) (pat : String)
    (getP : String → Except Err Policy) (enc : Rec → Option Err) :
    ∀ (names : List String) (hw : Bool),
      (∀ n ∈ names, (pm pat n).1 = false) →
      listLoop pm pat getP enc names hw = (hw, [], [], none) := by
  intro names
  induction names with
  | nil => intro hw _; rfl
  | cons n rest ih =>
    intro hw h
    rw [listLoop_cons_skip pm pat getP enc n rest hw (h n (List.mem_cons_self n rest))]
    exact ih hw fun x hx => h x (List.mem_cons_of_mem n hx)

/-- Edge-loop analogue of `listLoop_fst_congr`. -/
theorem edgeListLoop_fst_congr (pm pm2 : String → String → Bool × Bool)
    (h : ∀ p n, (pm2 p n).1 = (pm p n).1) (pat : String)
    (getP : String → Except Err Policy) (enc : Rec → Option Err) :
    ∀ (names : List String) (hw : Bool),
      edgeListLoop pm2 pat getP enc names hw =
        edgeListLoop pm pat getP enc names hw := by
  intro names
  induction names with
  | nil => intro hw; rfl
  | cons n rest ih =>
    intro hw
    by_cases hm : (pm pat n).1 = false
    · have hm2 : (pm2 pat n).1 = false := by rw [h]; exact hm
      simp only [edgeListLoop, hm, hm2, if_true]
      exact ih hw
    · have hmm : (pm pat n).1 = true := by simpa using hm
      have hmm2 : (pm2 pat n).1 = true := by rw [h]; exact hmm
      simp only [edgeListLoop, hmm, hmm2, Bool.true_eq_false, if_false]
      rw [ih true]

/-- Edge loop: a prefix of non-matching names is skipped outright. -/
theorem edgeListLoop_skip_unmatched (pm : String → String → Bool × Bool) (pat : String)
    (getP : String → Except Err Policy) (enc : Rec → Option Err) :
    ∀ (us suffix : List String) (hw : Bool),
      (∀ u ∈ us, (pm pat u).1 = false) →
      edgeListLoop pm pat getP enc (us ++ suffix) hw =
        edgeListLoop pm pat getP enc suffix hw := by
  intro us
  induction us with
  | nil => intro suffix hw _; rfl
  | cons u us ih =>
    intro suffix hw h
    have hu : (pm pat u).1 = false := h u (List.mem_cons_self u us)
    simp only [List.cons_append, edgeListLoop, hu, if_true]
    exact ih suffix hw fun x hx => h x (List.mem_cons_of_mem u hx)

/-- Claim C9: in both list handlers the error component of `path.Match`
is discarded — the handler output is invariant under changing the error
components of the match oracle — and a match function that rejects every
iterated name (which is what Go's `path.Match` yields, together with
`ErrBadPattern`, for a malformed pattern) produces a clean, empty success
response: the match error can never fail the list operation. -/
theorem list_match_error_discarded :
    (∀ (a : ListArgs) (pm2 : String → String → Bool × Bool),
      (∀ p n, (pm2 p n).1 = (a.pmatch p n).1) →
      listPolicy { a with pmatch := pm2 } = listPolicy a) ∧
    (∀ (a : EdgeListArgs) (pm2 : String → String → Bool × Bool),
      (∀ p n, (pm2 p n).1 = (a.pmatch p n).1) →
      edgeListPolicy { a with pmatch := pm2 } = edgeListPolicy a) ∧
    (∀ (a : ListArgs) (pat : String) (names : List String),
      a.patternRes = .ok pat → a.resolveRes = .ok () → a.verifyRes = .ok () →
      a.listRes = .ok names → a.closeRes = none →
      (∀ n ∈ names, (a.pmatch pat n).1 = false) →
      listPolicy a =
        ⟨none, [.writeHeader StatusOK],
         [.lockVaultR, .lockEnclaveR, .verifyRequest, .stateOp "ListPolicies",
          .unlockEnclaveR, .unlockVaultR]⟩) ∧
    (∀ (a : EdgeListArgs) (pat : String) (names : List String),
      a.patternRes = .ok pat → a.verifyRes = .ok () →
      a.listRes = .ok names → a.closeRes = none →
      (∀ n ∈ names, (a.pmatch pat n).1 = false) →
      edgeListPolicy a =
        ⟨none,
         [.setContentType NDJSON, .setContentType NDJSON, .writeHeader StatusOK],
         [.verifyRequest, .stateOp "List"]⟩) := by
  refine ⟨?_, ?_, ?_, ?_⟩
  · intro a pm2 h
    rcases hpat : a.patternRes with e | pat
    · simp [listPolicy, hpat]
    · rcases hres : a.resolveRes with e | u
      · simp [listPolicy, hpat, hres]
      · rcases hver : a.verifyRes with e | u2
        · simp [listPolicy, hpat, hres, hver]
        · rcases hlist : a.listRes with e | names
          · simp [listPolicy, hpat, hres, hver, hlist]
          · simp only [listPolicy, hpat, hres, hver, hlist]
            rw [listLoop_fst_congr a.pmatch pm2 h pat a.getP a.enc names false]
  · intro a pm2 h
    rcases hpat : a.patternRes with e | pat
    · simp [edgeListPolicy, hpat]
    · rcases hver : a.verifyRes with e | u
      · simp [edgeListPolicy, hpat, hver]
      · rcases hlist : a.listRes with e | names
        · simp [edgeListPolicy, hpat, hver, hlist]
        · simp only [edgeListPolicy, hpat, hver, hlist]
          rw [edgeListLoop_fst_congr a.pmatch pm2 h pat a.getP a.enc names false]
  · intro a pat names hpat hres hver hlist hclose hall
    simp only [listPolicy, hpat, hres, hver, hlist]
    rw [listLoop_all_unmatched a.pmatch pat a.getP a.enc names false hall]
    simp [hclose]
  · intro a pat names hpat hver hlist hclose hall
    simp only [edgeListPolicy, hpat, hver, hlist]
    have h0 := edgeListLoop_skip_unmatched a.pmatch pat a.getP a.enc names [] false hall
    simp only [List.append_nil] at h0
    rw [h0]
    simp [edgeListLoop, hclose]

/-- Witness for C9 at concrete inputs: over iterator names `["p1"]`,
(1) flipping the match oracle's error component (no error vs error) while
keeping the boolean leaves the enclave handler's output unchanged, and
(2)-(3) a match oracle answering `(false, true)` everywhere — `path.Match`
on a malformed pattern such as `"["` — yields the clean empty success
response in both the enclave and the edge handler. -/
theorem list_match_error_discarded_witness :
    (listPolicy ⟨.ok "[", .ok (), .ok (), .ok ["p1"], fun _ _ => (false, false),
        fun _ => .ok ⟨[], [], 1, ⟨"alice"⟩⟩, fun _ => none, none⟩ =
      listPolicy ⟨.ok "[", .ok (), .ok (), .ok ["p1"], fun _ _ => (false, true),
        fun _ => .ok ⟨[], [], 1, ⟨"alice"⟩⟩, fun _ => none, none⟩) ∧
    (listPolicy ⟨.ok "[", .ok (), .ok (), .ok ["p1"], fun _ _ => (false, true),
        fun _ => .ok ⟨[], [], 1, ⟨"alice"⟩⟩, fun _ => none, none⟩ =
      ⟨none, [.writeHeader StatusOK],
       [.lockVaultR, .lockEnclaveR, .verifyRequest, .stateOp "ListPolicies",
        .unlockEnclaveR, .unlockVaultR]⟩) ∧
    (edgeListPolicy ⟨.ok "[", .ok (), .ok ["p1"], fun _ _ => (false, true),
        fun _ => .ok ⟨[], [], 1, ⟨"alice"⟩⟩, fun _ => none, none⟩ =
      ⟨none,
       [.setContentType NDJSON, .setContentType NDJSON, .writeHeader StatusOK],
       [.verifyRequest, .stateOp "List"]⟩) := by
  refine ⟨?_, ?_, ?_⟩
  · exact list_match_error_discarded.1
      ⟨.ok "[", .ok (), .ok (), .ok ["p1"], fun _ _ => (false, true),
        fun _ => .ok ⟨[], [], 1, ⟨"alice"⟩⟩, fun _ => none, none⟩
      (fun _ _ => (false, false)) (fun _ _ => rfl)
  · exact list_match_error_discarded.2.2.1
      ⟨.ok "[", .ok (), .ok (), .ok ["p1"], fun _ _ => (false, true),
        fun _ => .ok ⟨[], [], 1, ⟨"alice"⟩⟩, fun _ => none, none⟩
      "[" ["p1"] rfl rfl rfl rfl rfl (fun _ _ => rfl)
  · exact list_match_error_discarded.2.2.2
      ⟨.ok "[", .ok (), .ok ["p1"], fun _ _ => (false, true),
        fun _ => .ok ⟨[], [], 1, ⟨"alice"⟩⟩, fun _ => none, none⟩
      "[" ["p1"] rfl rfl rfl rfl (fun _ _ => rfl)

/-- Claim C4, counterexample: in the edge list handler, the very first
matched name's metadata fetch fails — nothing has been written to the
response body yet, and no status header has been set — yet the handler
emits an in-body `{error}` record and returns success (`result = none`,
so the response goes out with an implicit 200), not a normal error
response of error status plus body as the claim requires of "every list
handler". -/
theorem edge_list_prewrite_error_counterexample :
    (edgeListPolicy ⟨.ok "*", .ok (), .ok ["p1"], fun _ _ => (true, false),
        fun _ => .error ⟨500, "store down"⟩, fun _ => none, none⟩).result = none ∧
    (edgeListPolicy ⟨.ok "*", .ok (), .ok ["p1"], fun _ _ => (true, false),
        fun _ => .error ⟨500, "store down"⟩, fun _ => none, none⟩).wire =
      [.setContentType NDJSON, .setContentType NDJSON,
       .record (.errRec "store down")] := by
  constructor
  · rfl
  · rfl

/-- Claim C4 (amended): in the *enclave* list handler, whenever the
handler surfaces a normal error response (a non-nil returned error, which
the router turns into an error status plus body), nothing had been
written to the response — so every pre-commit failure is a clean error
response and never an in-body error record; a matched policy's metadata
fetch there always happens after the header commit (claim C3).  The
*edge* list handler instead reports a matched name's metadata-fetch
failure as an in-body `{error}` record with a success result even when
nothing has been written yet. -/
theorem list_prewrite_error_surfaced (a : ListArgs) (b : EdgeListArgs)
    (pat : String) (names : List String) (us vs : List String) (n : String)
    (e e2 : Err) :
    ((listPolicy a).result = some e → (listPolicy a).wire = []) ∧
    (b.patternRes = .ok pat → b.verifyRes = .ok () → b.listRes = .ok names →
      names = us ++ n :: vs → (∀ u ∈ us, (b.pmatch pat u).1 = false) →
      (b.pmatch pat n).1 = true → b.getP n = .error e2 →
      edgeListPolicy b =
        ⟨none,
         [.setContentType NDJSON, .setContentType NDJSON,
          .record (.errRec e2.message)],
         [.verifyRequest, .stateOp "List", .stateOp "Get"]⟩) := by
  constructor
  · intro h
    rcases hpat : a.patternRes with er | pat2
    · simp [listPolicy, hpat] at h ⊢
    · rcases hres : a.resolveRes with er | u
      · simp [listPolicy, hpat, hres] at h ⊢
      · rcases hver : a.verifyRes with er | u2
        · simp [listPolicy, hpat, hres, hver] at h ⊢
        · rcases hlist : a.listRes with er | names2
          · simp [listPolicy, hpat, hres, hver, hlist] at h ⊢
          · rcases hr : (listLoop a.pmatch pat2 a.getP a.enc names2 false).2.2.2
              with _ | er
            · rcases hclose : a.closeRes with _ | er2
              · rcases hhw : (listLoop a.pmatch pat2 a.getP a.enc names2 false).1
                · simp [listPolicy, hpat, hres, hver, hlist, hr, hclose, hhw] at h
                · simp [listPolicy, hpat, hres, hver, hlist, hr, hclose, hhw] at h
              · rcases hhw : (listLoop a.pmatch pat2 a.getP a.enc names2 false).1
                · have hnw := (listLoop_not_written a.pmatch pat2 a.getP a.enc
                    names2 false hhw).1
                  simp [listPolicy, hpat, hres, hver, hlist, hr, hclose, hhw, hnw]
                · simp [listPolicy, hpat, hres, hver, hlist, hr, hclose, hhw] at h
            · have hhw : (listLoop a.pmatch pat2 a.getP a.enc names2 false).1 = true :=
                listLoop_err_hw a.pmatch pat2 a.getP a.enc names2 false
                  (by rw [hr]; rfl)
              simp [listPolicy, hpat, hres, hver, hlist, hr, hhw] at h
  · intro hpat hver hlist hnames hus hn hfail
    subst hnames
    simp only [edgeListPolicy, hpat, hver, hlist]
    rw [edgeListLoop_skip_unmatched b.pmatch pat b.getP b.enc us (n :: vs) false hus]
    simp [edgeListLoop, hn, hfail]

/-- Witness for the amended C4 at concrete inputs: (1) the enclave handler
whose iterator fails to open returns that error with an untouched, empty
wire — a clean error-status response; (2) the edge handler over names
`["q", "p1"]` where "q" does not match, "p1" matches and its fetch fails,
emits the in-body error record with a success result. -/
theorem list_prewrite_error_surfaced_witness :
    ((listPolicy ⟨.ok "*", .ok (), .ok (), .error ⟨503, "io"⟩,
        fun _ _ => (true, false), fun _ => .ok ⟨[], [], 1, ⟨"alice"⟩⟩,
        fun _ => none, none⟩).wire = []) ∧
    (edgeListPolicy ⟨.ok "*", .ok (), .ok ["q", "p1"],
        fun _ n => (n == "p1", false),
        fun _ => .error ⟨500, "store down"⟩, fun _ => none, none⟩ =
      ⟨none,
       [.setContentType NDJSON, .setContentType NDJSON,
        .record (.errRec "store down")],
       [.verifyRequest, .stateOp "List", .stateOp "Get"]⟩) := by
  constructor
  · exact (list_prewrite_error_surfaced
      ⟨.ok "*", .ok (), .ok (), .error ⟨503, "io"⟩, fun _ _ => (true, false),
        fun _ => .ok ⟨[], [], 1, ⟨"alice"⟩⟩, fun _ => none, none⟩
      ⟨.ok "*", .ok (), .ok [], fun _ _ => (true, false),
        fun _ => .ok ⟨[], [], 1, ⟨"alice"⟩⟩, fun _ => none, none⟩
      "*" [] [] [] "x" ⟨503, "io"⟩ ⟨0, ""⟩).1 rfl
  · exact (list_prewrite_error_surfaced
      ⟨.ok "*", .ok (), .ok (), .error ⟨503, "io"⟩, fun _ _ => (true, false),
        fun _ => .ok ⟨[], [], 1, ⟨"alice"⟩⟩, fun _ => none, none⟩
      ⟨.ok "*", .ok (), .ok ["q", "p1"], fun _ n => (n == "p1", false),
        fun _ => .error ⟨500, "store down"⟩, fun _ => none, none⟩
      "*" ["q", "p1"] ["q"] [] "p1" ⟨503, "io"⟩ ⟨500, "store down"⟩).2
      rfl rfl rfl rfl
      (by
        intro u hu
        simp at hu
        subst hu
        rfl)
      rfl rfl

/-! ### Lock discipline -/

/-- A trace consisting solely of state operations. -/
def stateOnly (l : List OpEvent) : Prop :=
  ∀ ev ∈ l, ∃ s, ev = OpEvent.stateOp s

theorem stateOnly_nil : stateOnly [] := by
  intro ev h
  simp at h

theorem stateOnly_cons (s : String) (l : List OpEvent) (h : stateOnly l) :
    stateOnly (.stateOp s :: l) := by
  intro ev hm
  rcases List.mem_cons.mp hm with h1 | h1
  · exact ⟨s, h1⟩
  · exact h ev h1

/-- The op-trace discipline of an enclave policy handler with enclave lock
`lk`/`ul`: either no lock was ever taken (name validation failed), or only
the vault read lock was taken and released (enclave resolution failed), or
the vault read lock was taken, then the enclave lock, then verification
ran, then only state operations happened, and the locks were released in
reverse order. -/
def lockPattern (lk ul : OpEvent) (ops : List OpEvent) : Prop :=
  ops = [] ∨ ops = [OpEvent.lockVaultR, OpEvent.unlockVaultR] ∨
  ∃ mid, stateOnly mid ∧
    ops = [OpEvent.lockVaultR, lk, OpEvent.verifyRequest] ++ mid ++
      [ul, OpEvent.unlockVaultR]

theorem lockPattern_no_state (lk ul : OpEvent) :
    lockPattern lk ul
      [OpEvent.lockVaultR, lk, OpEvent.verifyRequest, ul, OpEvent.unlockVaultR] :=
  Or.inr (Or.inr ⟨[], stateOnly_nil, by simp⟩)

theorem lockPattern_one_state (lk ul : OpEvent) (s : String) :
    lockPattern lk ul
      [OpEvent.lockVaultR, lk, OpEvent.verifyRequest, .stateOp s, ul,
       OpEvent.unlockVaultR] :=
  Or.inr (Or.inr ⟨[.stateOp s], stateOnly_cons s [] stateOnly_nil, by simp⟩)

theorem lockPattern_two_state (lk ul : OpEvent) (s1 s2 : String) :
    lockPattern lk ul
      [OpEvent.lockVaultR, lk, OpEvent.verifyRequest, .stateOp s1, .stateOp s2,
       ul, OpEvent.unlockVaultR] :=
  Or.inr (Or.inr ⟨[.stateOp s1, .stateOp s2],
    stateOnly_cons s1 [.stateOp s2] (stateOnly_cons s2 [] stateOnly_nil), by simp⟩)

theorem assign_lockPattern (a : AssignArgs) :
    lockPattern .lockEnclaveW .unlockEnclaveW (assignPolicy a).1.ops := by
  rcases hn : a.nameRes with e | n
  · simp [assignPolicy, hn, lockPattern]
  rcases hr : a.resolveRes with e | u
  · simp [assignPolicy, hn, hr, lockPattern]
  rcases hv : a.verifyRes with e | u2
  · simpa [assignPolicy, hn, hr, hv] using
      lockPattern_no_state OpEvent.lockEnclaveW OpEvent.unlockEnclaveW
  rcases hd : a.decodeRes with e | t
  · simpa [assignPolicy, hn, hr, hv, hd] using
      lockPattern_no_state OpEvent.lockEnclaveW OpEvent.unlockEnclaveW
  rcases hc : a.nameCheck t.value with _ | e
  · rcases hu : t.IsUnknown with _ | _
    · by_cases hs : a.self = t
      · simpa [assignPolicy, hn, hr, hv, hd, hc, hu, hs] using
          lockPattern_no_state OpEvent.lockEnclaveW OpEvent.unlockEnclaveW
      · rcases ha : a.adminRes with e | adm
        · simpa [assignPolicy, hn, hr, hv, hd, hc, hu, hs, ha] using
            lockPattern_one_state OpEvent.lockEnclaveW OpEvent.unlockEnclaveW "Admin"
        · by_cases hadm : adm = t
          · simpa [assignPolicy, hn, hr, hv, hd, hc, hu, hs, ha, hadm] using
              lockPattern_one_state OpEvent.lockEnclaveW OpEvent.unlockEnclaveW
                "Admin"
          · rcases hst : a.st.assignPolicy n t with e | st2
            · simpa [assignPolicy, hn, hr, hv, hd, hc, hu, hs, ha, hadm, hst] using
                lockPattern_two_state OpEvent.lockEnclaveW OpEvent.unlockEnclaveW
                  "Admin" "AssignPolicy"
            · simpa [assignPolicy, hn, hr, hv, hd, hc, hu, hs, ha, hadm, hst] using
                lockPattern_two_state OpEvent.lockEnclaveW OpEvent.unlockEnclaveW
                  "Admin" "AssignPolicy"
    · simpa [assignPolicy, hn, hr, hv, hd, hc, hu] using
        lockPattern_no_state OpEvent.lockEnclaveW OpEvent.unlockEnclaveW
  · simpa [assignPolicy, hn, hr, hv, hd, hc] using
      lockPattern_no_state OpEvent.lockEnclaveW OpEvent.unlockEnclaveW

theorem describe_lockPattern (a : GetArgs) :
    lockPattern .lockEnclaveR .unlockEnclaveR (describePolicy a).ops := by
  rcases hn : a.nameRes with e | n
  · simp [describePolicy, hn, lockPattern]
  rcases hr : a.resolveRes with e | u
  · simp [describePolicy, hn, hr, lockPattern]
  rcases hv : a.verifyRes with e | u2
  · simpa [describePolicy, hn, hr, hv] using
      lockPattern_no_state OpEvent.lockEnclaveR OpEvent.unlockEnclaveR
  rcases hg : a.st.getPolicy n with e | p
  · simpa [describePolicy, hn, hr, hv, hg] using
      lockPattern_one_state OpEvent.lockEnclaveR OpEvent.unlockEnclaveR "GetPolicy"
  · simpa [describePolicy, hn, hr, hv, hg] using
      lockPattern_one_state OpEvent.lockEnclaveR OpEvent.unlockEnclaveR "GetPolicy"

theorem read_lockPattern (a : GetArgs) :
    lockPattern .lockEnclaveR .unlockEnclaveR (readPolicy a).ops := by
  rcases hn : a.nameRes with e | n
  · simp [readPolicy, hn, lockPattern]
  rcases hr : a.resolveRes with e | u
  · simp [readPolicy, hn, hr, lockPattern]
  rcases hv : a.verifyRes with e | u2
  · simpa [readPolicy, hn, hr, hv] using
      lockPattern_no_state OpEvent.lockEnclaveR OpEvent.unlockEnclaveR
  rcases hg : a.st.getPolicy n with e | p
  · simpa [readPolicy, hn, hr, hv, hg] using
      lockPattern_one_state OpEvent.lockEnclaveR OpEvent.unlockEnclaveR "GetPolicy"
  · simpa [readPolicy, hn, hr, hv, hg] using
      lockPattern_one_state OpEvent.lockEnclaveR OpEvent.unlockEnclaveR "GetPolicy"

theorem write_lockPattern (a : WriteArgs) :
    lockPattern .lockEnclaveW .unlockEnclaveW (writePolicy a).1.ops := by
  rcases hn : a.nameRes with e | n
  · simp [writePolicy, hn, lockPattern]
  rcases hr : a.resolveRes with e | u
  · simp [writePolicy, hn, hr, lockPattern]
  rcases hv : a.verifyRes with e | u2
  · simpa [writePolicy, hn, hr, hv] using
      lockPattern_no_state OpEvent.lockEnclaveW OpEvent.unlockEnclaveW
  rcases hd : a.decodeRes with e | body
  · simpa [writePolicy, hn, hr, hv, hd] using
      lockPattern_no_state OpEvent.lockEnclaveW OpEvent.unlockEnclaveW
  rcases hs : a.setRes with _ | e
  · simpa [writePolicy, hn, hr, hv, hd, hs] using
      lockPattern_one_state OpEvent.lockEnclaveW OpEvent.unlockEnclaveW "SetPolicy"
  · simpa [writePolicy, hn, hr, hv, hd, hs] using
      lockPattern_one_state OpEvent.lockEnclaveW OpEvent.unlockEnclaveW "SetPolicy"

theorem delete_lockPattern (a : DeleteArgs) :
    lockPattern .lockEnclaveW .unlockEnclaveW (deletePolicy a).1.ops := by
  rcases hn : a.nameRes with e | n
  · simp [deletePolicy, hn, lockPattern]
  rcases hr : a.resolveRes with e | u
  · simp [deletePolicy, hn, hr, lockPattern]
  rcases hv : a.verifyRes with e | u2
  · simpa [deletePolicy, hn, hr, hv] using
      lockPattern_no_state OpEvent.lockEnclaveW OpEvent.unlockEnclaveW
  rcases hdel : a.st.deletePolicy n with e | st2
  · simpa [deletePolicy, hn, hr, hv, hdel] using
      lockPattern_one_state OpEvent.lockEnclaveW OpEvent.unlockEnclaveW
        "DeletePolicy"
  · simpa [deletePolicy, hn, hr, hv, hdel] using
      lockPattern_one_state OpEvent.lockEnclaveW OpEvent.unlockEnclaveW
        "DeletePolicy"

theorem list_lockPattern (a : ListArgs) :
    lockPattern .lockEnclaveR .unlockEnclaveR (listPolicy a).ops := by
  rcases hpat : a.patternRes with e | pat
  · simp [listPolicy, hpat, lockPattern]
  rcases hr : a.resolveRes with e | u
  · simp [listPolicy, hpat, hr, lockPattern]
  rcases hv : a.verifyRes with e | u2
  · simpa [listPolicy, hpat, hr, hv] using
      lockPattern_no_state OpEvent.lockEnclaveR OpEvent.unlockEnclaveR
  rcases hl : a.listRes with e | names
  · simpa [listPolicy, hpat, hr, hv, hl] using
      lockPattern_one_state OpEvent.lockEnclaveR OpEvent.unlockEnclaveR
        "ListPolicies"
  have hmid : stateOnly (.stateOp "ListPolicies" ::
      (listLoop a.pmatch pat a.getP a.enc names false).2.2.1) :=
    stateOnly_cons "ListPolicies" _
      (listLoop_ops_state a.pmatch pat a.getP a.enc names false)
  have hgoal : ∀ x, x = [OpEvent.lockVaultR, .lockEnclaveR, .verifyRequest,
        .stateOp "ListPolicies"] ++
        (listLoop a.pmatch pat a.getP a.enc names false).2.2.1 ++
        [.unlockEnclaveR, .unlockVaultR] →
      lockPattern .lockEnclaveR .unlockEnclaveR x := by
    intro x hx
    refine Or.inr (Or.inr ⟨.stateOp "ListPolicies" ::
      (listLoop a.pmatch pat a.getP a.enc names false).2.2.1, hmid, ?_⟩)
    simp [hx]
  rcases he : (listLoop a.pmatch pat a.getP a.enc names false).2.2.2 with _ | e
  · rcases hclose : a.closeRes with _ | e2
    · rcases hhw : (listLoop a.pmatch pat a.getP a.enc names false).1
      · exact hgoal _ (by simp [listPolicy, hpat, hr, hv, hl, he, hclose, hhw])
      · exact hgoal _ (by simp [listPolicy, hpat, hr, hv, hl, he, hclose, hhw])
    · rcases hhw : (listLoop a.pmatch pat a.getP a.enc names false).1
      · exact hgoal _ (by simp [listPolicy, hpat, hr, hv, hl, he, hclose, hhw])
      · exact hgoal _ (by simp [listPolicy, hpat, hr, hv, hl, he, hclose, hhw])
  · rcases hhw : (listLoop a.pmatch pat a.getP a.enc names false).1
    · exact hgoal _ (by simp [listPolicy, hpat, hr, hv, hl, he, hhw])
    · exact hgoal _ (by simp [listPolicy, hpat, hr, hv, hl, he, hhw])

/-- Claim C7: every enclave policy handler's op-trace obeys the locking
discipline — once past name/pattern validation (which takes no lock), the
vault read lock is acquired first, then the enclave lock (write lock for
the mutations assign/write/delete, read lock for describe/read/list),
request verification runs under the enclave lock before any state read or
mutation, and both locks are released in reverse order on every exit
path, success or failure. -/
theorem policy_handlers_lock_discipline (aa : AssignArgs) (da ra : GetArgs)
    (wa : WriteArgs) (dla : DeleteArgs) (la : ListArgs) :
    lockPattern .lockEnclaveW .unlockEnclaveW (assignPolicy aa).1.ops ∧
    lockPattern .lockEnclaveR .unlockEnclaveR (describePolicy da).ops ∧
    lockPattern .lockEnclaveR .unlockEnclaveR (readPolicy ra).ops ∧
    lockPattern .lockEnclaveW .unlockEnclaveW (writePolicy wa).1.ops ∧
    lockPattern .lockEnclaveW .unlockEnclaveW (deletePolicy dla).1.ops ∧
    lockPattern .lockEnclaveR .unlockEnclaveR (listPolicy la).ops :=
  ⟨assign_lockPattern aa, describe_lockPattern da, read_lockPattern ra,
   write_lockPattern wa, delete_lockPattern dla, list_lockPattern la⟩

/-- Claim C8, counterexample: the claim says *every* policy operation
carries a 15-second timeout, but the edge constructors override the 15s
default with a configured per-path timeout when one is present and
positive: with `APIConfig["/v1/policy/describe/"].Timeout = 30s`, the edge
describe API carries a 30-second timeout. -/
theorem policy_api_timeout_counterexample :
    (edgeDescribePolicyAPI (some 30)).timeoutSec = 30 ∧
    (30 : Int) ≠ 15 := by
  constructor
  · rfl
  · decide

/-- Claim C8 (amended): every *enclave* policy operation carries a
15-second timeout; the edge policy operations default to 15 seconds and
only a present, positive configured timeout overrides that default.  Each
operation's maximum body bound matches the interface table — 1 KiB for
assign, 1 MiB for write, 0 for describe, read, delete and list — and a
request whose body exceeds the operation's bound is rejected without the
handler being consulted (the rejection is independent of the handler). -/
theorem policy_api_limits (c : Int) (api : API) (bodySize : Nat)
    (run run2 : Unit → HOut) :
    (assignPolicyAPI.timeoutSec = 15 ∧ describePolicyAPI.timeoutSec = 15 ∧
     readPolicyAPI.timeoutSec = 15 ∧ writePolicyAPI.timeoutSec = 15 ∧
     deletePolicyAPI.timeoutSec = 15 ∧ listPolicyAPI.timeoutSec = 15) ∧
    (assignPolicyAPI.maxBody = 1024 ∧ writePolicyAPI.maxBody = 1024 * 1024 ∧
     describePolicyAPI.maxBody = 0 ∧ readPolicyAPI.maxBody = 0 ∧
     deletePolicyAPI.maxBody = 0 ∧ listPolicyAPI.maxBody = 0) ∧
    (edgeTimeout none = 15 ∧
     (c ≤ 0 → edgeTimeout (some c) = 15) ∧
     (0 < c → edgeTimeout (some c) = c)) ∧
    (api.maxBody < bodySize →
      route api bodySize run = route api bodySize run2 ∧
      (route api bodySize run).result = some ⟨413, "request body too large"⟩) := by
  refine ⟨⟨rfl, rfl, rfl, rfl, rfl, rfl⟩, ⟨rfl, rfl, rfl, rfl, rfl, rfl⟩,
    ⟨rfl, ?_, ?_⟩, ?_⟩
  · intro hc
    have : ¬(0 < c) := not_lt.mpr hc
    simp [edgeTimeout, this]
  · intro hc
    simp [edgeTimeout, hc]
  · intro hover
    have : ¬(bodySize ≤ api.maxBody) := not_le.mpr hover
    constructor
    · simp [route, this]
    · simp [route, this]

/-- Witness for the amended C8 at concrete inputs: a 2000-byte body on
the 1 KiB assign API is rejected with the same outcome for two different
handler bodies (the handler is never consulted), and a configured edge
timeout of 30 seconds overrides the default while a configured 0 does
not. -/
theorem policy_api_limits_witness :
    (route assignPolicyAPI 2000 (fun _ => ⟨none, [], []⟩) =
      route assignPolicyAPI 2000 (fun _ => ⟨some ⟨500, "x"⟩, [], []⟩)) ∧
    ((route assignPolicyAPI 2000 (fun _ => ⟨none, [], []⟩)).result =
      some ⟨413, "request body too large"⟩) ∧
    edgeTimeout (some 30) = 30 ∧ edgeTimeout (some 0) = 15 := by
  have h := policy_api_limits 30 assignPolicyAPI 2000
    (fun _ => ⟨none, [], []⟩) (fun _ => ⟨some ⟨500, "x"⟩, [], []⟩)
  have h0 := policy_api_limits 0 assignPolicyAPI 2000
    (fun _ => ⟨none, [], []⟩) (fun _ => ⟨some ⟨500, "x"⟩, [], []⟩)
  refine ⟨(h.2.2.2 (by decide)).1, (h.2.2.2 (by decide)).2,
    h.2.2.1.2.2 (by decide), h0.2.2.1.2.1 (by decide)⟩

end KES
